import Mathlib

/-!
Verification of the TraycerLite plan-generation and enhancement pipeline.

This file shallowly embeds the core TypeScript modules of the repository:
`analysis.ts` (task analyzer), `decisionEngine.ts` (technology decision
engine), `planner.ts` (rule-based planner), `openaiService.ts` (enhancement
service with caching, retry and fallback) and the two `planOrchestrator`
variants (batch and sequential background enhancement).

Modelling conventions:
* JavaScript strings are Lean `String`s; `String.prototype.includes` is
  substring containment, `toLowerCase` is `String.toLower`, `trim` is
  `String.trim`.
* JavaScript numbers are exact rationals `ℚ` (every constant in the engine
  is a small decimal; no comparison in the engine is close enough to be
  flipped by binary floating point rounding).
* The external model provider (OpenAI client) is an oracle parameter: call
  number `k` yields either a thrown error or a content string.  `JSON.parse`
  of the JavaScript runtime is likewise a parameter `parse`.
* The sha-256 content hashes used only as cache/lookup keys are modelled by
  their (injective-by-assumption) preimage strings.
* Async functions that the event loop runs to completion are modelled as
  state transformers; the reachable states of a background enhancement run
  are the snapshots at its suspension points.
-/

namespace TraycerLite

/-! ## JavaScript string primitives -/

/-- Character-list version of `String.startsWith`. -/
def startsWithCh : List Char → List Char → Bool
  | [], _ => true
  | _ :: _, [] => false
  | c :: cs, d :: ds => c == d && startsWithCh cs ds

/-- Substring containment on character lists (`String.prototype.includes`). -/
def containsCh (sub : List Char) : List Char → Bool
  | [] => startsWithCh sub []
  | c :: rest => startsWithCh sub (c :: rest) || containsCh sub rest

/-- JavaScript `s.includes(sub)`. -/
def jsIncludes (s sub : String) : Bool := containsCh sub.data s.data

/-- ASCII lower-casing of one character. -/
def lowerChar (c : Char) : Char :=
  if c.isUpper then Char.ofNat (c.toNat + 32) else c

/-- JavaScript `s.toLowerCase()` (ASCII case folding). -/
def jsToLower (s : String) : String := String.mk (s.data.map lowerChar)

/-- JavaScript `s.trim()`: strip whitespace from both ends. -/
def jsTrim (s : String) : String :=
  String.mk
    (((s.data.dropWhile Char.isWhitespace).reverse.dropWhile Char.isWhitespace).reverse)

/-- JavaScript `s.endsWith(suffix)` for one-character suffixes. -/
def endsWithChar (s : List Char) (c : Char) : Bool :=
  match s.getLast? with
  | some d => d == c
  | none => false

/-- Word characters of the JavaScript regex class `\w`. -/
def isWordChar (c : Char) : Bool := c.isAlphanum || c == '_'

/-- Is the optional character a word character (absent counts as non-word)? -/
def optWord : Option Char → Bool
  | none => false
  | some c => isWordChar c

/-- JavaScript regex `\b`: a boundary lies between two characters iff exactly
one of them is a word character. -/
def wordBoundary (a b : Option Char) : Bool := optWord a != optWord b

/-- Does the keyword match at the current position with `\b` on both sides?
`prev` is the character immediately before the position. -/
def wbHere (kw : List Char) (prev : Option Char) (s : List Char) : Bool :=
  startsWithCh kw s && wordBoundary prev kw.head? &&
    wordBoundary kw.getLast? (s.drop kw.length).head?

/-- Scan the string for a `\b`-delimited occurrence of the keyword. -/
def wbScan (kw : List Char) (prev : Option Char) : List Char → Bool
  | [] => wbHere kw prev []
  | c :: rest => wbHere kw prev (c :: rest) || wbScan kw (some c) rest

/-- JavaScript `new RegExp('\\b' + kw + '\\b', 'i').test(s)` for a keyword
made of word characters (all single-word keywords in the pattern tables are);
the inputs are already lowercased so the `i` flag is inert. -/
def regexWordTest (kw s : String) : Bool := wbScan kw.data none s.data

/-! ## analysis.ts — data model -/

/-- Project types of `TaskAnalysis.projectType` (`types.ts`). -/
inductive PType where
  | webApp | api | cli | library | fullstack
deriving DecidableEq, Repr

/-- String form of a project type as it appears in the TypeScript union. -/
def PType.toStr : PType → String
  | .webApp => "web-app"
  | .api => "api"
  | .cli => "cli"
  | .library => "library"
  | .fullstack => "fullstack"

/-- Complexity tiers of `TaskAnalysis.complexity`. -/
inductive Complexity where
  | simple | medium | complex
deriving DecidableEq, Repr

/-- One alternative technology inside a `TechnologyComparison`. -/
structure Alternative where
  technology : String
  whenToUse : String
  tradeoffs : List String
deriving DecidableEq, Repr

/-- Implementation estimate inside a `TechnologyComparison`. -/
structure ImplEstimate where
  complexity : String
  timeline : String
  learningCurve : String
deriving DecidableEq, Repr

/-- Pros/cons bundle of a `TechnologyComparison`. -/
structure Tradeoffs where
  pros : List String
  cons : List String
deriving DecidableEq, Repr

/-- `TechnologyComparison` of `types.ts`. -/
structure TechnologyComparison where
  recommendation : String
  confidence : ℚ
  reasoning : List String
  tradeoffs : Tradeoffs
  alternatives : List Alternative
  implementation : ImplEstimate
deriving DecidableEq, Repr

/-- `TaskAnalysis` of `types.ts`; the three recommendation fields are the
optional properties, absent (`none`) until the analyzer attaches them. -/
structure TaskAnalysis where
  projectType : PType
  features : List String
  complexity : Complexity
  hasAuth : Bool
  hasDatabase : Bool
  hasFrontend : Bool
  hasBackend : Bool
  hasRealtime : Bool
  hasFastAPI : Bool
  hasFintech : Bool
  hasHealthcare : Bool
  hasEcommerce : Bool
  databaseRecommendation : Option TechnologyComparison := none
  backendRecommendation : Option TechnologyComparison := none
  frontendRecommendation : Option TechnologyComparison := none
deriving DecidableEq, Repr

/-! ## analysis.ts — pattern tables -/

/-- `PATTERNS.projectType`, in `Object.entries` order. -/
def projectTypeTable : List (PType × List String) :=
  [ (.webApp, ["app", "website", "dashboard", "platform", "portal", "web app", "webapp"])
  , (.api, ["api", "rest", "endpoint", "service", "backend", "server"])
  , (.cli, ["command", "terminal", "cli", "tool", "script", "command line"])
  , (.library, ["library", "package", "module", "sdk", "framework"])
  , (.fullstack, ["full", "fullstack", "full-stack", "complete", "full stack"]) ]

/-- `PATTERNS.features`, in `Object.entries` order. -/
def featureCatalog : List (String × List String) :=
  [ ("auth", ["auth", "login", "signup", "user", "account", "register", "authentication", "authorization"])
  , ("database", ["database", "data", "store", "persist", "sql", "postgres", "mysql", "mongodb", "db"])
  , ("realtime", ["realtime", "websocket", "live", "socket", "real-time", "real time", "live updates"])
  , ("api", ["rest api", "rest endpoint", "backend api", "server api", "api endpoint", "graphql", "routes", "express", "fastify", "backend", "node", "nodejs", "server"])
  , ("fastapi", ["fastapi", "fast api", "python api", "python backend", "uvicorn"])
  , ("frontend", ["frontend", "ui", "interface", "react", "component", "vue", "angular", "context api", "state management"])
  , ("testing", ["test", "testing", "jest", "unit test", "integration test", "e2e"])
  , ("payment", ["payment", "stripe", "checkout", "billing", "paypal", "credit card"])
  , ("email", ["email", "mail", "notification", "smtp", "sendgrid"])
  , ("file", ["file", "upload", "download", "storage", "s3", "cloudinary"])
  , ("search", ["search", "elasticsearch", "algolia", "query"])
  , ("cache", ["cache", "redis", "memcached", "caching"])
  , ("monitoring", ["monitoring", "analytics", "logging", "metrics", "tracking"])
  , ("fintech", ["fintech", "financial", "banking", "loan", "credit", "mortgage", "investment", "trading", "crypto", "blockchain", "payment processing", "compliance", "audit", "transaction"])
  , ("healthcare", ["healthcare", "medical", "patient", "hospital", "clinic", "pharmacy", "hipaa", "health records"])
  , ("ecommerce", ["ecommerce", "e-commerce", "shopping", "retail", "inventory", "catalog", "cart", "checkout"]) ]

/-! ## analysis.ts — detection functions -/

/-- Keyword test inside `detectProjectType`: the bare keyword `api` of the
`api` project type is replaced by the four explicit phrases; every other
keyword is a plain substring test. -/
def ptKeywordHit (input : String) (t : PType) (kw : String) : Bool :=
  if t == .api && kw == "api" then
    jsIncludes input "rest api" || jsIncludes input "backend api" ||
      jsIncludes input "server api" || jsIncludes input "rest endpoint"
  else jsIncludes input kw

/-- The `for (const [type, keywords] of Object.entries(PATTERNS.projectType))`
loop of `detectProjectType`, defaulting to web-app. -/
def ptScan (input : String) : List (PType × List String) → PType
  | [] => .webApp
  | (t, kws) :: rest => if kws.any (ptKeywordHit input t) then t else ptScan input rest

/-- `detectProjectType` of `analysis.ts`. -/
def detectProjectType (input : String) : PType :=
  if (jsIncludes input "frontend" && jsIncludes input "backend") ||
      (jsIncludes input "react" && jsIncludes input "node") ||
      (jsIncludes input "frontend" && jsIncludes input "node") ||
      jsIncludes input "fullstack" || jsIncludes input "full-stack" ||
      jsIncludes input "full stack" then
    .fullstack
  else if jsIncludes input "context api" || jsIncludes input "react" ||
      jsIncludes input "component" then
    .webApp
  else if jsIncludes input "library" || jsIncludes input "package" ||
      jsIncludes input "module" || jsIncludes input "sdk" ||
      jsIncludes input "framework" then
    .library
  else ptScan input projectTypeTable

/-- Per-keyword feature test of `detectFeatures`: multi-word keywords by
substring, single words via the `\b` regex. -/
def hasFeatureKw (input : String) (kws : List String) : Bool :=
  kws.any fun kw =>
    if kw.data.contains ' ' then jsIncludes input kw else regexWordTest kw input

/-- One iteration of the `detectFeatures` loop: skip the `api` feature when
frontend was already detected from a `context api` phrase, otherwise push the
feature name if a keyword matches and it is not already present. -/
def featStep (input : String) (detected : List String) (fk : String × List String) :
    List String :=
  if fk.1 == "api" && detected.contains "frontend" && jsIncludes input "context api" then
    detected
  else if hasFeatureKw input fk.2 && !(detected.contains fk.1) then
    detected ++ [fk.1]
  else detected

/-- `detectFeatures` of `analysis.ts`: frontend pre-step for
`context api`/`state management`, the catalog loop, then the REST-API
special block. -/
def detectFeatures (input : String) : List String :=
  let init :=
    if jsIncludes input "context api" || jsIncludes input "state management" then
      ["frontend"]
    else []
  let looped := featureCatalog.foldl (featStep input) init
  if (jsIncludes input "rest api" || jsIncludes input "rest endpoint" ||
      jsIncludes input "backend api" || jsIncludes input "server api") &&
      !(looped.contains "api") then
    looped ++ ["api"]
  else looped

/-- `determineComplexity` of `analysis.ts`. -/
def determineComplexity (featureCount : Nat) : Complexity :=
  if featureCount ≤ 2 then .simple
  else if featureCount ≤ 5 then .medium
  else .complex

/-! ## decisionEngine.ts — scoring rules

Scores are exact rationals; every constant of the source is a small decimal.
-/

/-- `DATABASE_RULES.sql.score`. -/
def databaseSqlScore (analysis : TaskAnalysis) : ℚ :=
  let s0 : ℚ := 0
  let s1 := s0 + (if analysis.features.contains "auth" then (0.3 : ℚ) else 0)
  let s2 := s1 + (if analysis.features.contains "payment" then (0.4 : ℚ) else 0)
  let s3 := s2 + (if analysis.complexity = .complex then (0.3 : ℚ) else 0)
  let s4 := s3 + (if analysis.hasAuth then (0.2 : ℚ) else 0)
  let s5 := s4 + (if analysis.hasFintech then (0.8 : ℚ) else 0)
  let s6 := s5 + (if analysis.hasHealthcare then (0.7 : ℚ) else 0)
  let s7 := s6 + (if analysis.hasEcommerce then (0.5 : ℚ) else 0)
  min s7 1

/-- `DATABASE_RULES.nosql.score`. -/
def databaseNosqlScore (analysis : TaskAnalysis) : ℚ :=
  let s0 : ℚ := 0
  let s1 := s0 + (if analysis.features.contains "realtime" then (0.3 : ℚ) else 0)
  let s2 := s1 + (if analysis.features.contains "analytics" then (0.4 : ℚ) else 0)
  let s3 := s2 + (if analysis.complexity = .simple then (0.3 : ℚ) else 0)
  let s4 := s3 + (if analysis.hasRealtime then (0.2 : ℚ) else 0)
  let s5 := s4 - (if analysis.hasFintech then (0.6 : ℚ) else 0)
  let s6 := s5 - (if analysis.hasHealthcare then (0.5 : ℚ) else 0)
  max 0 (min s6 1)

/-- `BACKEND_RULES.nodejs.score`. -/
def backendNodejsScore (analysis : TaskAnalysis) : ℚ :=
  let s0 : ℚ := 0
  let s1 := s0 + (if analysis.hasFrontend ∧ ¬analysis.hasFastAPI then (0.4 : ℚ) else 0)
  let s2 := s1 + (if analysis.features.contains "realtime" then (0.3 : ℚ) else 0)
  let s3 := s2 + (if analysis.complexity = .simple ∨ analysis.complexity = .medium then (0.3 : ℚ) else 0)
  let s4 := s3 + (if analysis.hasFintech then (0.2 : ℚ) else 0)
  min s4 1

/-- `BACKEND_RULES.fastapi.score`. -/
def backendFastapiScore (analysis : TaskAnalysis) : ℚ :=
  let s0 : ℚ := 0
  let s1 := s0 + (if analysis.hasFastAPI then (0.5 : ℚ) else 0)
  let s2 := s1 + (if analysis.features.contains "api" then (0.3 : ℚ) else 0)
  let s3 := s2 + (if analysis.complexity = .complex then (0.2 : ℚ) else 0)
  let s4 := s3 + (if analysis.hasFintech then (0.3 : ℚ) else 0)
  min s4 1

/-- `FRONTEND_RULES.react.score`. -/
def frontendReactScore (analysis : TaskAnalysis) : ℚ :=
  let s0 : ℚ := 0
  let s1 := s0 + (if analysis.features.contains "frontend" then (0.4 : ℚ) else 0)
  let s2 := s1 + (if analysis.projectType = .webApp ∨ analysis.projectType = .fullstack then (0.3 : ℚ) else 0)
  let s3 := s2 + (if analysis.complexity = .medium ∨ analysis.complexity = .complex then (0.3 : ℚ) else 0)
  min s3 1

/-- Fixed-text part of one decision rule (recommendation, reasoning bundle). -/
structure RuleText where
  triggers : List String
  recommendation : String
  reasoning : List String
  pros : List String
  cons : List String
  alternatives : List Alternative
deriving Repr

/-- Fixed text of `DATABASE_RULES.sql`. -/
def dbRuleSql : RuleText :=
  { triggers := ["structured", "relationships", "acid", "transactions", "consistency"]
  , recommendation := "PostgreSQL"
  , reasoning :=
      [ "Structured data with clear relationships"
      , "ACID compliance for critical operations"
      , "Complex queries with joins and aggregations"
      , "Mature ecosystem with proven reliability" ]
  , pros :=
      [ "ACID compliance", "Complex queries with joins", "Mature ecosystem"
      , "Excellent tooling", "Strong consistency" ]
  , cons :=
      [ "Schema changes require migrations", "Primarily vertical scaling"
      , "Less flexible for rapid changes" ]
  , alternatives :=
      [ { technology := "MySQL"
        , whenToUse := "When you need a more established, widely-used SQL database"
        , tradeoffs := ["More mature ecosystem", "Better Windows support", "Less advanced features than PostgreSQL"] }
      , { technology := "SQLite"
        , whenToUse := "For small applications or development/testing"
        , tradeoffs := ["Zero configuration", "Single file database", "Not suitable for production with multiple users"] } ] }

/-- Fixed text of `DATABASE_RULES.nosql`. -/
def dbRuleNosql : RuleText :=
  { triggers := ["unstructured", "scalable", "flexible", "big data", "document"]
  , recommendation := "MongoDB"
  , reasoning :=
      [ "Flexible schema for rapid development"
      , "Horizontal scaling capabilities"
      , "Good for document-based data"
      , "JSON-like data structure" ]
  , pros :=
      [ "Flexible schema", "Horizontal scaling", "Fast development"
      , "JSON-like data", "Good for prototyping" ]
  , cons :=
      [ "No ACID transactions", "Less mature tooling"
      , "Can lead to data inconsistency", "Learning curve for complex queries" ]
  , alternatives :=
      [ { technology := "Cassandra"
        , whenToUse := "For massive scale and high availability requirements"
        , tradeoffs := ["Excellent horizontal scaling", "High availability", "Complex data modeling", "Steep learning curve"] }
      , { technology := "Redis"
        , whenToUse := "For caching, sessions, or real-time data"
        , tradeoffs := ["Extremely fast", "In-memory storage", "Limited data types", "Not suitable as primary database"] } ] }

/-- Fixed text of `BACKEND_RULES.nodejs`. -/
def beRuleNodejs : RuleText :=
  { triggers := ["javascript", "node", "express", "npm", "async"]
  , recommendation := "Node.js with Express"
  , reasoning :=
      [ "Same language as React frontend (JavaScript)"
      , "Rich ecosystem with NPM packages"
      , "Excellent for I/O-heavy applications"
      , "Fast development with existing tooling" ]
  , pros :=
      [ "Same language as frontend", "Rich NPM ecosystem", "Fast development"
      , "Good async performance", "Large community" ]
  , cons :=
      [ "Single-threaded limitations", "Callback complexity"
      , "Less suitable for CPU-intensive tasks" ]
  , alternatives :=
      [ { technology := "Node.js with Fastify"
        , whenToUse := "When you need better performance than Express"
        , tradeoffs := ["Faster than Express", "Better TypeScript support", "Smaller ecosystem", "Less middleware"] } ] }

/-- Fixed text of `BACKEND_RULES.fastapi`. -/
def beRuleFastapi : RuleText :=
  { triggers := ["fastapi", "python", "async", "performance", "api"]
  , recommendation := "Python with FastAPI"
  , reasoning :=
      [ "Excellent performance for API-heavy applications"
      , "Automatic API documentation"
      , "Type safety with Pydantic"
      , "Great async support" ]
  , pros :=
      [ "High performance", "Auto-generated docs", "Type safety"
      , "Great async support", "Modern Python features" ]
  , cons :=
      [ "Smaller ecosystem than Node.js"
      , "Python learning curve if team is JS-focused"
      , "Less mature than Express" ]
  , alternatives :=
      [ { technology := "Python with Django"
        , whenToUse := "For full-stack applications with admin interface"
        , tradeoffs := ["Batteries included", "Admin interface", "Heavier framework", "More opinionated"] }
      , { technology := "Python with Flask"
        , whenToUse := "For lightweight, flexible applications"
        , tradeoffs := ["Lightweight", "Flexible", "More manual setup", "Less features out of the box"] } ] }

/-- Fixed text of `FRONTEND_RULES.react`. -/
def feRuleReact : RuleText :=
  { triggers := ["react", "component", "spa", "interactive"]
  , recommendation := "React with TypeScript"
  , reasoning :=
      [ "Most popular and mature frontend framework"
      , "Large ecosystem and community"
      , "Component-based architecture"
      , "Excellent tooling and development experience" ]
  , pros :=
      [ "Large ecosystem", "Component-based", "Great tooling"
      , "Strong community", "Flexible" ]
  , cons :=
      [ "Learning curve", "Rapid changes", "Can be overkill for simple apps" ]
  , alternatives :=
      [ { technology := "Vue.js"
        , whenToUse := "For teams wanting a gentler learning curve"
        , tradeoffs := ["Easier to learn", "Good documentation", "Smaller ecosystem", "Less job market"] }
      , { technology := "Svelte"
        , whenToUse := "For performance-critical applications"
        , tradeoffs := ["Better performance", "Smaller bundle size", "Smaller ecosystem", "Less mature"] } ] }

/-! ## decisionEngine.ts — confidence, timelines, analyses -/

/-- JavaScript `Math.round(x * 100) / 100` (round half towards plus
infinity, two decimals). -/
def jsRound2 (q : ℚ) : ℚ := ((⌊q * 100 + 1 / 2⌋ : ℤ) : ℚ) / 100

/-- `getDatabaseTimeline` (the `default` branch is unreachable for the typed
complexity union). -/
def getDatabaseTimeline : Complexity → String
  | .simple => "1-2 days"
  | .medium => "3-5 days"
  | .complex => "1-2 weeks"

/-- `getBackendTimeline`. -/
def getBackendTimeline : Complexity → String
  | .simple => "1-2 weeks"
  | .medium => "2-3 weeks"
  | .complex => "3-6 weeks"

/-- `getFrontendTimeline`. -/
def getFrontendTimeline : Complexity → String
  | .simple => "1-2 weeks"
  | .medium => "2-4 weeks"
  | .complex => "4-8 weeks"

/-- `calculateDatabaseConfidence`. -/
def calculateDatabaseConfidence (analysis : TaskAnalysis) (isSQL : Bool)
    (baseConfidence : ℚ) : ℚ :=
  let c0 := baseConfidence
  let c1 := c0 + (if analysis.hasFintech ∧ isSQL then (0.2 : ℚ) else 0)
  let c2 := c1 + (if analysis.hasHealthcare ∧ isSQL then (0.15 : ℚ) else 0)
  let c3 := c2 + (if analysis.hasEcommerce ∧ isSQL then (0.1 : ℚ) else 0)
  let c4 := c3 + (if analysis.hasAuth ∧ isSQL then (0.1 : ℚ) else 0)
  let c5 := c4 + (if analysis.features.contains "payment" ∧ isSQL then (0.15 : ℚ) else 0)
  let c6 := c5 + (if analysis.complexity = .complex ∧ isSQL then (0.1 : ℚ) else 0)
  let c7 := c6 - (if analysis.hasFintech ∧ ¬isSQL then (0.3 : ℚ) else 0)
  let c8 := c7 - (if analysis.hasHealthcare ∧ ¬isSQL then (0.25 : ℚ) else 0)
  let scoreDifference := |databaseSqlScore analysis - databaseNosqlScore analysis|
  let c9 :=
    if scoreDifference > 0.5 then c8 + 0.1
    else if scoreDifference < 0.2 then c8 - 0.1
    else c8
  max 0.1 (min 0.95 c9)

/-- `calculateBackendConfidence`. -/
def calculateBackendConfidence (analysis : TaskAnalysis) (isNodeJS : Bool)
    (baseConfidence : ℚ) : ℚ :=
  let c0 := baseConfidence
  let c1 := c0 + (if analysis.hasFrontend ∧ isNodeJS then (0.15 : ℚ) else 0)
  let c2 := c1 + (if analysis.hasFintech ∧ ¬isNodeJS then (0.1 : ℚ) else 0)
  let c3 := c2 + (if analysis.hasRealtime ∧ isNodeJS then (0.1 : ℚ) else 0)
  let c4 := c3 + (if analysis.features.contains "api" ∧ ¬isNodeJS then (0.1 : ℚ) else 0)
  let c5 := c4 + (if analysis.complexity = .complex ∧ ¬isNodeJS then (0.05 : ℚ) else 0)
  let c6 := c5 + (if analysis.hasFastAPI then (0.2 : ℚ) else 0)
  max 0.1 (min 0.95 c6)

/-- `calculateFrontendConfidence`. -/
def calculateFrontendConfidence (analysis : TaskAnalysis) (baseConfidence : ℚ) : ℚ :=
  let c0 := baseConfidence
  let c1 := c0 + (if analysis.projectType = .webApp ∨ analysis.projectType = .fullstack then (0.1 : ℚ) else 0)
  let c2 := c1 + (if analysis.complexity = .medium ∨ analysis.complexity = .complex then (0.1 : ℚ) else 0)
  let c3 := c2 + (if analysis.hasRealtime then (0.05 : ℚ) else 0)
  let c4 := c3 + (if analysis.hasBackend then (0.05 : ℚ) else 0)
  max 0.1 (min 0.95 c4)

/-- Implementation-complexity tier string used by all three analyses. -/
def implComplexityStr (c : Complexity) : String :=
  if c = .complex then "high" else if c = .medium then "medium" else "low"

/-- `DecisionEngine.analyzeDatabase`. -/
def analyzeDatabase (analysis : TaskAnalysis) : TechnologyComparison :=
  let sqlScore := databaseSqlScore analysis
  let nosqlScore := databaseNosqlScore analysis
  let isSQL := sqlScore > nosqlScore
  let rules := if isSQL then dbRuleSql else dbRuleNosql
  let baseConfidence := max sqlScore nosqlScore
  let confidence := calculateDatabaseConfidence analysis isSQL baseConfidence
  let reasoning :=
    if analysis.hasFintech ∧ isSQL then
      [ "ACID compliance essential for financial transactions"
      , "Regulatory compliance (SOX, PCI DSS) requirements"
      , "Audit trails and transaction logging capabilities"
      , "Data integrity critical for financial calculations"
      , "Complex financial reporting with joins and aggregations" ]
    else rules.reasoning
  { recommendation := rules.recommendation
  , confidence := jsRound2 confidence
  , reasoning := reasoning
  , tradeoffs := { pros := rules.pros, cons := rules.cons }
  , alternatives := rules.alternatives
  , implementation :=
      { complexity := implComplexityStr analysis.complexity
      , timeline := getDatabaseTimeline analysis.complexity
      , learningCurve :=
          if isSQL then "Medium - SQL knowledge required"
          else "Low - JSON-like structure" } }

/-- `DecisionEngine.analyzeBackend`. -/
def analyzeBackend (analysis : TaskAnalysis) : TechnologyComparison :=
  let nodejsScore := backendNodejsScore analysis
  let fastapiScore := backendFastapiScore analysis
  let isNodeJS := nodejsScore > fastapiScore
  let rules := if isNodeJS then beRuleNodejs else beRuleFastapi
  let baseConfidence := max nodejsScore fastapiScore
  let confidence := calculateBackendConfidence analysis isNodeJS baseConfidence
  { recommendation := rules.recommendation
  , confidence := jsRound2 confidence
  , reasoning := rules.reasoning
  , tradeoffs := { pros := rules.pros, cons := rules.cons }
  , alternatives := rules.alternatives
  , implementation :=
      { complexity := implComplexityStr analysis.complexity
      , timeline := getBackendTimeline analysis.complexity
      , learningCurve :=
          if isNodeJS then "Low if team knows JavaScript"
          else "Medium - Python learning curve" } }

/-- `DecisionEngine.analyzeFrontend`. -/
def analyzeFrontend (analysis : TaskAnalysis) : TechnologyComparison :=
  let reactScore := frontendReactScore analysis
  let rules := feRuleReact
  let confidence := calculateFrontendConfidence analysis reactScore
  { recommendation := rules.recommendation
  , confidence := jsRound2 confidence
  , reasoning := rules.reasoning
  , tradeoffs := { pros := rules.pros, cons := rules.cons }
  , alternatives := rules.alternatives
  , implementation :=
      { complexity := implComplexityStr analysis.complexity
      , timeline := getFrontendTimeline analysis.complexity
      , learningCurve := "Medium - Component-based thinking required" } }

/-! ## analysis.ts — analyzeTask -/

/-- The `baseAnalysis` object literal of `analyzeTask`.  Note that the
`hasBackend` derivation reads the RAW input (`input.includes('backend')` and
the blog/posts/comments checks), not the lowercased copy — modelled exactly
as in the source. -/
def baseAnalysisOf (input : String) : TaskAnalysis :=
  let lowerInput := jsToLower input
  let projectType := detectProjectType lowerInput
  let features := detectFeatures lowerInput
  let complexity := determineComplexity features.length
  { projectType := projectType
  , features := features
  , complexity := complexity
  , hasAuth := features.contains "auth"
  , hasDatabase := features.contains "database" || features.contains "auth" ||
      projectType == .webApp || projectType == .fullstack
  , hasFrontend := features.contains "frontend" || projectType == .webApp ||
      projectType == .fullstack
  , hasBackend := features.contains "api" || features.contains "fastapi" ||
      features.contains "auth" || projectType == .api || projectType == .fullstack ||
      features.contains "fintech" || features.contains "ecommerce" ||
      jsIncludes input "backend" ||
      (projectType == .webApp &&
        (features.contains "database" || jsIncludes input "blog" ||
          jsIncludes input "posts" || jsIncludes input "comments"))
  , hasRealtime := features.contains "realtime"
  , hasFastAPI := features.contains "fastapi"
  , hasFintech := features.contains "fintech"
  , hasHealthcare := features.contains "healthcare"
  , hasEcommerce := features.contains "ecommerce" }

/-- `analyzeTask` of `analysis.ts`: the base analysis followed by the three
conditional recommendation attachments. -/
def analyzeTask (input : String) : TaskAnalysis :=
  let base := baseAnalysisOf input
  let a1 := if base.hasDatabase then
      { base with databaseRecommendation := some (analyzeDatabase base) }
    else base
  let a2 := if a1.hasBackend then
      { a1 with backendRecommendation := some (analyzeBackend a1) }
    else a1
  if a2.hasFrontend then
    { a2 with frontendRecommendation := some (analyzeFrontend a2) }
  else a2

/-! ## planner.ts — data model -/

/-- `FileChange.action` union. -/
inductive FileAction where
  | create | modify | delete
deriving DecidableEq, Repr

/-- Phase lifecycle status union of `types.ts`. -/
inductive PhaseStatus where
  | pending | ready | in_flight | enhancing | enhanced | enhancement_failed
deriving DecidableEq, Repr

/-- `FileChange` of `types.ts` (`reasoning` is optional and never set by the
planner). -/
structure FileChange where
  path : String
  action : FileAction
  description : String
  details : List String
  reasoning : Option String := none
deriving DecidableEq, Repr

/-- `Phase` of `types.ts` (`estimatedTime` is optional in the interface). -/
structure Phase where
  id : String
  name : String
  description : String
  files : List FileChange
  dependencies : List String
  estimatedTime : Option String := none
  status : PhaseStatus
deriving DecidableEq, Repr

/-- `Plan.generationMethod` union. -/
inductive GenMethod where
  | ruleBased | hybrid
deriving DecidableEq, Repr

/-- `Plan` of `types.ts`. -/
structure Plan where
  id : String
  task : String
  overview : String
  phases : List Phase
  techStack : List String
  risks : List String
  generationMethod : GenMethod
deriving DecidableEq, Repr

/-! ## planner.ts — phase templates -/

/-- `generateSetupPhase`. -/
def generateSetupPhase (analysis : TaskAnalysis) : Phase :=
  let files : List FileChange :=
    if analysis.hasFastAPI then
      [ { path := "requirements.txt", action := .create
        , description := "Python dependencies"
        , details :=
            [ "FastAPI and Uvicorn for server", "SQLAlchemy for database"
            , "Pydantic for validation", "Development dependencies" ] }
      , { path := "app/__init__.py", action := .create
        , description := "Application package initialization"
        , details := ["Empty __init__.py file"] }
      , { path := "app/main.py", action := .create
        , description := "FastAPI application configuration"
        , details :=
            [ "FastAPI app initialization", "CORS middleware setup"
            , "Route registration" ] }
      , { path := ".env", action := .create
        , description := "Environment variables"
        , details :=
            [ "Database connection string", "API keys and secrets"
            , "Environment-specific settings" ] } ]
    else
      [ { path := "package.json", action := .create
        , description := "Initialize Node.js project with dependencies"
        , details :=
            [ "Set up TypeScript with strict mode", "Add essential dependencies"
            , "Configure build and dev scripts" ] }
      , { path := "tsconfig.json", action := .create
        , description := "TypeScript configuration"
        , details :=
            [ "Enable strict type checking", "Set module resolution to Node"
            , "Configure path aliases for clean imports" ] }
      , { path := "src/types/index.ts", action := .create
        , description := "Define core TypeScript interfaces"
        , details :=
            [ "Create domain models", "Define API request/response types"
            , "Add utility types" ] } ]
  { id := "phase-setup"
  , name := "Project Setup & Architecture"
  , description := "Initialize project structure and configure development environment"
  , status := .ready
  , estimatedTime := some "30 minutes"
  , dependencies := []
  , files := files }

/-- `generateDatabasePhase`. -/
def generateDatabasePhase (analysis : TaskAnalysis) : Phase :=
  let files : List FileChange :=
    if analysis.hasFastAPI then
      [ { path := "app/database.py", action := .create
        , description := "Database configuration and connection"
        , details :=
            [ "SQLAlchemy engine setup", "Database session management"
            , "Connection pooling configuration" ] }
      , { path := "app/models/__init__.py", action := .create
        , description := "Models package initialization"
        , details := ["Empty __init__.py file"] } ] ++
      (if analysis.hasFintech then
        [ { path := "app/models/loan.py", action := .create
          , description := "Loan model definition"
          , details :=
              [ "SQLAlchemy model for loans table", "Credit score and payment history"
              , "Compliance and audit fields", "Define relationships and constraints" ] } ]
      else if analysis.hasEcommerce then
        [ { path := "app/models/product.py", action := .create
          , description := "Product model definition"
          , details :=
              [ "SQLAlchemy model for products table", "Category and inventory relationships"
              , "Price and variant management", "Define relationships and constraints" ] } ]
      else
        [ { path := "app/models/base.py", action := .create
          , description := "Base model definition"
          , details :=
              [ "SQLAlchemy base model", "Common fields and relationships"
              , "Add validation and indexes" ] } ]) ++
      [ { path := "alembic.ini", action := .create
        , description := "Alembic configuration"
        , details := ["Database migration tool setup", "Connection string configuration"] }
      , { path := "alembic/env.py", action := .create
        , description := "Alembic environment configuration"
        , details := ["Migration environment setup", "Model metadata configuration"] } ]
    else
      [ { path := "src/database/schema.sql", action := .create
        , description := "Database schema definition"
        , details :=
            [ "Create tables based on domain requirements"
            , "Define relationships and constraints", "Add indexes for performance" ] }
      , { path := "src/database/migrations/001_initial.sql", action := .create
        , description := "Initial database migration"
        , details :=
            [ "Create migration script", "Include rollback instructions"
            , "Add data seeding if needed" ] } ]
  let files :=
    if analysis.hasAuth then
      files ++
      [ { path := "src/database/models/User.ts", action := .create
        , description := "User model definition"
        , details :=
            [ "Define user schema", "Add authentication fields"
            , "Include validation rules" ] } ]
    else files
  { id := "phase-database"
  , name := "Database Design & Setup"
  , description := "Design and implement database schema with proper relationships"
  , status := .ready
  , estimatedTime := some "45 minutes"
  , dependencies := ["phase-setup"]
  , files := files }

/-- `generateAuthPhase` (note the unconditional dependency on both
`phase-setup` and `phase-database`). -/
def generateAuthPhase (_analysis : TaskAnalysis) : Phase :=
  { id := "phase-auth"
  , name := "Authentication System"
  , description := "Implement user authentication and authorization"
  , status := .ready
  , estimatedTime := some "60 minutes"
  , dependencies := ["phase-setup", "phase-database"]
  , files :=
      [ { path := "src/auth/middleware.ts", action := .create
        , description := "Authentication middleware"
        , details :=
            [ "JWT token validation", "Role-based access control"
            , "Session management" ] }
      , { path := "src/auth/routes.ts", action := .create
        , description := "Authentication routes"
        , details :=
            [ "Login and register endpoints", "Password reset functionality"
            , "Token refresh mechanism" ] }
      , { path := "src/auth/utils.ts", action := .create
        , description := "Authentication utilities"
        , details :=
            [ "Password hashing with bcrypt", "JWT token generation"
            , "Validation helpers" ] } ] }

/-- `generateBackendPhase`. -/
def generateBackendPhase (analysis : TaskAnalysis) : Phase :=
  let files : List FileChange :=
    if analysis.hasFastAPI then
      [ { path := "main.py", action := .create
        , description := "FastAPI application entry point"
        , details :=
            [ "FastAPI app initialization", "Middleware configuration"
            , "Route registration", "CORS setup" ] }
      , { path := "app/routers/__init__.py", action := .create
        , description := "Router package initialization"
        , details := ["Empty __init__.py file"] } ] ++
      (if analysis.hasFintech then
        [ { path := "app/routers/loans.py", action := .create
          , description := "Loan management API routes"
          , details :=
              [ "Loan application endpoints", "Credit scoring integration"
              , "Payment processing routes", "Compliance and audit logging" ] } ]
      else if analysis.hasEcommerce then
        [ { path := "app/routers/products.py", action := .create
          , description := "Product catalog API routes"
          , details :=
              [ "Product CRUD operations", "Inventory management"
              , "Category management", "Search and filtering" ] } ]
      else
        [ { path := "app/routers/api.py", action := .create
          , description := "Main API routes"
          , details :=
              [ "RESTful endpoint structure", "Request/response models"
              , "Error handling", "Database integration" ] } ]) ++
      [ { path := "app/models/__init__.py", action := .create
        , description := "Models package initialization"
        , details := ["Empty __init__.py file"] } ] ++
      (if analysis.hasFintech then
        [ { path := "app/models/loan.py", action := .create
          , description := "Loan data models"
          , details :=
              [ "Loan application model", "Credit score model"
              , "Payment history model", "Compliance tracking model" ] } ]
      else if analysis.hasEcommerce then
        [ { path := "app/models/product.py", action := .create
          , description := "Product data models"
          , details :=
              [ "Product model with variants", "Category model"
              , "Inventory model", "Order model" ] } ]
      else
        [ { path := "app/models/base.py", action := .create
          , description := "Base data models"
          , details :=
              [ "Pydantic models for validation", "Database models"
              , "Response schemas" ] } ]) ++
      [ { path := "app/database.py", action := .create
        , description := "Database configuration"
        , details := ["SQLAlchemy setup", "Database connection", "Session management"] }
      , { path := "requirements.txt", action := .create
        , description := "Python dependencies"
        , details :=
            [ "FastAPI and Uvicorn", "SQLAlchemy and database drivers"
            , "Pydantic for validation" ] } ]
    else
      [ { path := "src/server.ts", action := .create
        , description := "Main server entry point"
        , details :=
            [ "Express.js server setup", "Middleware configuration"
            , "Route registration" ] } ] ++
      (if analysis.hasFintech then
        [ { path := "src/routes/loans.ts", action := .create
          , description := "Loan management routes"
          , details :=
              [ "Loan application endpoints", "Credit scoring integration"
              , "Payment processing routes", "Compliance and audit logging" ] } ]
      else if analysis.hasEcommerce then
        [ { path := "src/routes/products.ts", action := .create
          , description := "Product catalog routes"
          , details :=
              [ "Product CRUD operations", "Inventory management"
              , "Category management", "Search and filtering" ] } ]
      else
        [ { path := "src/routes/index.ts", action := .create
          , description := "API route definitions"
          , details :=
              [ "RESTful endpoint structure", "Request validation"
              , "Error handling" ] } ])
  let files :=
    if analysis.hasRealtime then
      files ++
      [ { path := "src/websocket/handler.ts", action := .create
        , description := "WebSocket connection handler"
        , details :=
            [ "Socket.io integration", "Room management"
            , "Real-time event handling" ] } ]
    else files
  { id := "phase-backend"
  , name := "Backend API Development"
  , description := "Build RESTful API with proper error handling and validation"
  , status := .ready
  , estimatedTime := some "90 minutes"
  , dependencies := if analysis.hasDatabase then ["phase-database"] else ["phase-setup"]
  , files := files }

/-- `generateFrontendPhase`. -/
def generateFrontendPhase (analysis : TaskAnalysis) : Phase :=
  let files : List FileChange :=
    [ { path := "src/components/App.tsx", action := .create
      , description := "Main application component"
      , details :=
          [ "React component structure", "State management setup"
          , "Routing configuration" ] }
    , { path := "src/components/Layout.tsx", action := .create
      , description := "Application layout wrapper"
      , details :=
          [ "Header and navigation", "Footer component", "Responsive design" ] } ]
  let files :=
    if analysis.hasFintech then
      files ++
      [ { path := "src/components/LoanApplication.tsx", action := .create
        , description := "Loan application form component"
        , details :=
            [ "Multi-step loan application form", "Credit score display"
            , "Document upload functionality", "Progress tracking" ] }
      , { path := "src/components/LoanDashboard.tsx", action := .create
        , description := "Loan management dashboard"
        , details :=
            [ "Loan status overview", "Payment history display"
            , "Compliance reporting", "Financial calculations" ] } ]
    else if analysis.hasEcommerce then
      files ++
      [ { path := "src/components/ProductCatalog.tsx", action := .create
        , description := "Product catalog component"
        , details :=
            [ "Product grid display", "Search and filtering"
            , "Category navigation", "Product details modal" ] }
      , { path := "src/components/ShoppingCart.tsx", action := .create
        , description := "Shopping cart component"
        , details :=
            [ "Cart item management", "Quantity updates"
            , "Price calculations", "Checkout integration" ] } ]
    else files
  let files :=
    if analysis.hasAuth then
      files ++
      [ { path := "src/components/Auth/LoginForm.tsx", action := .create
        , description := "User login form"
        , details := ["Form validation", "API integration", "Error handling"] } ]
    else files
  { id := "phase-frontend"
  , name := "Frontend Development"
  , description := "Build responsive user interface with modern React patterns"
  , status := .ready
  , estimatedTime := some "120 minutes"
  , dependencies := if analysis.hasBackend then ["phase-backend"] else ["phase-setup"]
  , files := files }

/-- `generateTestingPhase`. -/
def generateTestingPhase (analysis : TaskAnalysis) : Phase :=
  let files : List FileChange :=
    if analysis.hasFastAPI then
      [ { path := "pytest.ini", action := .create
        , description := "Pytest configuration"
        , details :=
            [ "Test discovery settings", "Coverage reporting"
            , "Test markers and options" ] }
      , { path := "conftest.py", action := .create
        , description := "Pytest fixtures and configuration"
        , details :=
            [ "Test database setup", "FastAPI test client fixtures"
            , "Common test utilities" ] } ]
    else
      [ { path := "jest.config.js", action := .create
        , description := "Jest testing configuration"
        , details :=
            [ "Test environment setup", "Coverage reporting"
            , "Mock configurations" ] } ]
  let files :=
    if analysis.hasBackend then
      if analysis.hasFastAPI then
        files ++
        [ { path := "tests/test_api.py", action := .create
          , description := "FastAPI endpoint tests"
          , details :=
              [ "Integration tests for routes", "Authentication testing"
              , "Error scenario coverage", "Pydantic model validation" ] } ]
      else
        files ++
        [ { path := "src/__tests__/api.test.ts", action := .create
          , description := "API endpoint tests"
          , details :=
              [ "Integration tests for routes", "Authentication testing"
              , "Error scenario coverage" ] } ]
    else files
  let files :=
    if analysis.hasFrontend then
      files ++
      [ { path := "src/__tests__/components.test.tsx", action := .create
        , description := "Component unit tests"
        , details :=
            [ "React Testing Library setup", "Component behavior testing"
            , "User interaction testing" ] } ]
    else files
  { id := "phase-testing"
  , name := "Testing & Quality Assurance"
  , description := "Implement comprehensive test suite for reliability"
  , status := .ready
  , estimatedTime := some "60 minutes"
  , dependencies :=
      if analysis.hasFrontend then ["phase-frontend"]
      else if analysis.hasBackend then ["phase-backend"]
      else ["phase-setup"]
  , files := files }

/-- `generatePhases`: fixed pipeline order setup → database? → auth? →
backend? → frontend? → testing. -/
def generatePhases (analysis : TaskAnalysis) : List Phase :=
  [generateSetupPhase analysis] ++
  (if analysis.hasDatabase then [generateDatabasePhase analysis] else []) ++
  (if analysis.hasAuth then [generateAuthPhase analysis] else []) ++
  (if analysis.hasBackend then [generateBackendPhase analysis] else []) ++
  (if analysis.hasFrontend then [generateFrontendPhase analysis] else []) ++
  [generateTestingPhase analysis]

/-- `determineTechStack`. -/
def determineTechStack (analysis : TaskAnalysis) : List String :=
  (if analysis.hasFastAPI then ["Python", "FastAPI", "Uvicorn"]
   else ["TypeScript", "Node.js"]) ++
  (if analysis.hasFrontend then ["React", "Tailwind CSS"] else []) ++
  (if analysis.hasBackend then
    if analysis.hasFastAPI then
      (if analysis.hasDatabase then ["SQLAlchemy"] else [])
    else ["Express.js"]
   else []) ++
  (if analysis.hasDatabase then
    if analysis.hasFastAPI then ["PostgreSQL", "SQLAlchemy"]
    else ["PostgreSQL", "Prisma"]
   else []) ++
  (if analysis.hasAuth then
    if analysis.hasFastAPI then ["JWT", "python-jose", "passlib"]
    else ["JWT", "bcrypt"]
   else []) ++
  (if analysis.hasRealtime then
    if analysis.hasFastAPI then ["WebSockets"] else ["Socket.io"]
   else []) ++
  (if analysis.hasFastAPI then ["pytest", "black", "flake8"]
   else ["Jest", "ESLint", "Prettier"])

/-- `identifyRisks`. -/
def identifyRisks (analysis : TaskAnalysis) : List String :=
  (if analysis.complexity = .complex then
    ["High complexity may require additional planning and testing"] else []) ++
  (if analysis.hasAuth then
    ["Security considerations for user authentication and data protection"] else []) ++
  (if analysis.hasDatabase then
    ["Database schema changes may require careful migration planning"] else []) ++
  (if analysis.hasRealtime then
    ["Real-time features may require additional infrastructure considerations"] else []) ++
  (if analysis.features.contains "payment" then
    ["Payment integration requires PCI compliance and secure handling"] else []) ++
  (if analysis.projectType = .fullstack then
    ["Full-stack development requires coordination between frontend and backend teams"] else [])

/-- Join a list of strings with a separator (`Array.prototype.join`). -/
def joinSep (sep : String) : List String → String
  | [] => ""
  | [x] => x
  | x :: rest => x ++ sep ++ joinSep sep rest

/-- `planTask` of `planner.ts`.  The ambient `Date.now()` used for the plan
id is passed explicitly as `now`. -/
def planTask (now : Int) (task : String) : Plan :=
  let analysis := analyzeTask task
  let phases := generatePhases analysis
  { id := "plan-" ++ toString now
  , task := task
  , overview := "Implementation plan with " ++ toString phases.length ++
      " phases. Each phase contains detailed file-level instructions for building a " ++
      analysis.projectType.toStr ++ " with " ++ joinSep ", " analysis.features ++
      " features."
  , phases := phases
  , techStack := determineTechStack analysis
  , risks := identifyRisks analysis
  , generationMethod := .ruleBased }

/-! ## openaiService.ts — JavaScript values

JavaScript values flowing out of `JSON.parse` are modelled by `Json`.
`JSON.parse` itself is a runtime primitive external to the repository and is
a parameter (`JsonParse`) of the service model, as is the external model
provider (`Oracle`: call number to thrown-or-content outcome).
-/

/-- JavaScript values produced by `JSON.parse` (an `obj` is a property map
with unique keys). -/
inductive Json where
  | null
  | bool (b : Bool)
  | num (q : ℚ)
  | str (s : String)
  | arr (elems : List Json)
  | obj (fields : List (String × Json))

/-- Property access `v[k]` (`none` plays the role of `undefined`). -/
def Json.getField : Json → String → Option Json
  | .obj fields, k => fields.lookup k
  | _, _ => none

/-- JavaScript truthiness. -/
def Json.isTruthy : Json → Bool
  | .null => false
  | .bool b => b
  | .num q => decide (q ≠ 0)
  | .str s => decide (s ≠ "")
  | .arr _ => true
  | .obj _ => true

/-- JavaScript `typeof v === 'object'` (`null` and arrays included). -/
def typeofIsObject : Json → Bool
  | .null => true
  | .arr _ => true
  | .obj _ => true
  | _ => false

/-- Is the property present and a string (`typeof v.k === 'string'`)? -/
def isStrField : Option Json → Bool
  | some (.str _) => true
  | _ => false

/-- Is the property present and an array (`Array.isArray(v.k)`)? -/
def isArrField : Option Json → Bool
  | some (.arr _) => true
  | _ => false

/-- Is the value `null`? -/
def Json.isNull : Json → Bool
  | .null => true
  | _ => false

/-- JavaScript `a || b` on an optionally-present property. -/
def jsOr (v : Option Json) (dflt : Json) : Json :=
  match v with
  | some j => if j.isTruthy then j else dflt
  | none => dflt

/-! ## openaiService.ts — validateResponse -/

/-- Validation of one entry of the `files` array.  A `null` entry makes the
source throw a `TypeError` out of `validateResponse`; at every call site that
throw and a `false` result continue identically (failed attempt), so the
model folds both into `false`. -/
def validFileEntry (file : Json) : Bool :=
  isStrField (file.getField "path") && isArrField (file.getField "details") &&
  isStrField (file.getField "architecture_notes") &&
  isStrField (file.getField "implementation_guidance") &&
  isStrField (file.getField "security_considerations") &&
  isStrField (file.getField "performance_tips") &&
  (match file.getField "details" with
   | some (.arr details) => details.all fun d => match d with | .str _ => true | _ => false
   | _ => true)

/-- `validateResponse` of `openaiService.ts`: the full structural schema. -/
def validateResponse (response : Json) : Bool :=
  if !(response.isTruthy && typeofIsObject response) then false
  else if !(isStrField (response.getField "description") &&
      isStrField (response.getField "reasoning")) then false
  else if !((jsOr (response.getField "architecture") .null).isTruthy &&
      typeofIsObject (jsOr (response.getField "architecture") .null)) then false
  else
    let arch := jsOr (response.getField "architecture") .null
    if !(isArrField (arch.getField "patterns") && isArrField (arch.getField "design_decisions") &&
        isArrField (arch.getField "security_measures") &&
        isArrField (arch.getField "performance_optimizations") &&
        isStrField (arch.getField "scalability_approach")) then false
    else if !((jsOr (response.getField "implementation") .null).isTruthy &&
        typeofIsObject (jsOr (response.getField "implementation") .null)) then false
    else
      let impl := jsOr (response.getField "implementation") .null
      if !(isArrField (impl.getField "best_practices") && isStrField (impl.getField "code_structure") &&
          isStrField (impl.getField "error_handling") && isStrField (impl.getField "testing_strategy") &&
          isStrField (impl.getField "deployment_considerations")) then false
      else
        match response.getField "files" with
        | some (.arr files) =>
          if !(files.all validFileEntry) then false
          else
            match response.getField "estimated_tokens" with
            | none => true
            | some (.num _) => true
            | some _ => false
        | _ => false

/-! ## openaiService.ts — fallback and simple-schema conversion -/

/-- `createFallbackResponse`: the locally synthesized, schema-valid response
built from the phase's own base content. -/
def createFallbackResponse (phase : Phase) : Json :=
  .obj
    [ ("description", .str ("Enhanced implementation details for " ++ phase.name ++
        ". This phase focuses on " ++ jsToLower phase.description ++ "."))
    , ("reasoning", .str "This is a fallback response generated when AI enhancement failed. The base plan remains intact and functional.")
    , ("architecture", .obj
        [ ("patterns", .arr [.str "MVC Pattern", .str "Repository Pattern"])
        , ("design_decisions", .arr [.str "Modular architecture for maintainability", .str "Separation of concerns"])
        , ("scalability_approach", .str "Horizontal scaling with load balancing")
        , ("security_measures", .arr [.str "Input validation", .str "Authentication and authorization"])
        , ("performance_optimizations", .arr [.str "Caching strategies", .str "Database indexing"]) ])
    , ("implementation", .obj
        [ ("best_practices", .arr [.str "Follow SOLID principles", .str "Use TypeScript for type safety", .str "Implement proper error handling"])
        , ("code_structure", .str "Organize code into modules with clear separation of concerns")
        , ("error_handling", .str "Implement comprehensive error handling with proper logging")
        , ("testing_strategy", .str "Unit tests, integration tests, and end-to-end testing")
        , ("deployment_considerations", .str "Containerization with Docker, CI/CD pipeline setup") ])
    , ("files", .arr (phase.files.map fun file => .obj
        [ ("path", .str file.path)
        , ("details", .arr ((file.details ++
            [ "Additional implementation considerations will be added during development"
            , "Follow best practices for the specific technology stack" ]).map Json.str))
        , ("architecture_notes", .str "Follow established architectural patterns for this file type")
        , ("implementation_guidance", .str "Implement with focus on maintainability and scalability")
        , ("security_considerations", .str "Ensure proper input validation and security measures")
        , ("performance_tips", .str "Optimize for performance and consider caching where appropriate") ])) ]

/-- `convertSimpleToFullResponse`.  Accessing `file.path` on a `null` array
entry, or `.map` on a truthy non-array `files`, throws in the source; the
throw is caught by the enclosing simple-schema `try` and yields the fallback,
so the model signals it as `.error`.  A property that would be `undefined`
is written as `null` — every later check treats the two identically. -/
def convertSimpleToFullResponse (simpleResponse : Json) (phase : Phase) :
    Except Unit Json :=
  match jsOr (simpleResponse.getField "files") (.arr []) with
  | .arr elems =>
    if elems.any Json.isNull then .error ()
    else .ok (.obj
      [ ("description", jsOr (simpleResponse.getField "description")
          (.str ("Enhanced implementation for " ++ phase.name)))
      , ("reasoning", jsOr (simpleResponse.getField "reasoning")
          (.str "AI-enhanced implementation with best practices"))
      , ("architecture", .obj
          [ ("patterns", .arr [.str "MVC Pattern", .str "Repository Pattern"])
          , ("design_decisions", .arr [.str "Modular architecture", .str "Separation of concerns"])
          , ("scalability_approach", .str "Horizontal scaling with load balancing")
          , ("security_measures", .arr [.str "Input validation", .str "Authentication"])
          , ("performance_optimizations", .arr [.str "Caching", .str "Database indexing"]) ])
      , ("implementation", .obj
          [ ("best_practices", .arr [.str "Follow SOLID principles", .str "Use TypeScript"])
          , ("code_structure", .str "Organize code into modules")
          , ("error_handling", .str "Comprehensive error handling with logging")
          , ("testing_strategy", .str "Unit and integration testing")
          , ("deployment_considerations", .str "Containerization with Docker") ])
      , ("files", .arr (elems.map fun file => .obj
          [ ("path", (file.getField "path").getD .null)
          , ("details", jsOr (file.getField "details") (.arr []))
          , ("architecture_notes", .str "Follow established patterns")
          , ("implementation_guidance", .str "Implement with best practices")
          , ("security_considerations", .str "Ensure proper validation")
          , ("performance_tips", .str "Optimize for performance") ])) ])
  | _ => .error ()

/-! ## openaiService.ts — response-text processing

Characters that the task's surface syntax cannot spell directly are
constructed by code point: left/right curly brace, backtick and the two
quote characters.
-/

/-- Left curly brace. -/
def lbrace : Char := Char.ofNat 123

/-- Right curly brace. -/
def rbrace : Char := Char.ofNat 125

/-- Backtick. -/
def btick : Char := Char.ofNat 96

/-- Single quote. -/
def squote : Char := Char.ofNat 39

/-- Double quote. -/
def dquote : Char := Char.ofNat 34

/-- JavaScript `s.startsWith(c)` for a one-character needle. -/
def startsWithChar (s : List Char) (c : Char) : Bool :=
  match s.head? with
  | some d => d == c
  | none => false

/-- Drop a leading whitespace run (`\s*` after a matched marker). -/
def dropWsRun (l : List Char) : List Char := l.dropWhile Char.isWhitespace

/-- Length bound for `List.dropWhile`. -/
theorem dropWhileLen {α} (p : α → Bool) (l : List α) :
    (l.dropWhile p).length ≤ l.length := by
  induction l with
  | nil => simp
  | cons c rest ih =>
    by_cases h : p c
    · simp only [List.dropWhile, h]
      exact Nat.le_trans ih (Nat.le_succ _)
    · simp [List.dropWhile, h]

/-- Length bound for `dropWsRun`. -/
theorem dropWsRun_length_le (l : List Char) : (dropWsRun l).length ≤ l.length :=
  dropWhileLen _ l

/-- Global regex replacement of `marker` followed by `\s*` with the empty
string (the marker is passed with an explicit head so it is never empty). -/
def replaceMarkerWs (m : Char) (ms : List Char) : List Char → List Char
  | [] => []
  | c :: rest =>
    if startsWithCh (m :: ms) (c :: rest) then
      replaceMarkerWs m ms (dropWsRun (rest.drop ms.length))
    else c :: replaceMarkerWs m ms rest
termination_by l => l.length
decreasing_by
  · exact Nat.lt_succ_of_le (Nat.le_trans (dropWsRun_length_le _)
      (by simpa using List.length_drop ms.length rest ▸ Nat.sub_le rest.length ms.length))
  · simp

/-- Strip markdown code fences: first `/` ``` `json\s*/g` `/`, then
`/` ``` `\s*/g` `/`. -/
def stripFences (l : List Char) : List Char :=
  replaceMarkerWs btick [btick, btick]
    (replaceMarkerWs btick [btick, btick, 'j', 's', 'o', 'n'] l)

/-- Index of the first occurrence of a character (`String.indexOf`). -/
def idxOfChar (c : Char) : List Char → Option Nat
  | [] => none
  | d :: rest => if d == c then some 0 else (idxOfChar c rest).map (· + 1)

/-- Cut leading prose: `indexOf('{')`, and when positive take the substring
from there. -/
def cutToFirstLB (s : List Char) : List Char :=
  match idxOfChar lbrace s with
  | some i => if i > 0 then s.drop i else s
  | none => s

/-- Greedy regex `/\x7b[\s\S]*\x7d/`: the span from the first left brace to
the last right brace, when that is a well-formed span. -/
def extractBracesSpan (s : List Char) : Option (List Char) :=
  match idxOfChar lbrace s with
  | none => none
  | some i =>
    let t := s.drop i
    match idxOfChar rbrace t.reverse with
    | none => none
    | some j => some (t.take (t.length - j))

/-! ### cleanJsonString -/

/-- Does a whitespace run followed by a closing brace/bracket begin here? -/
def wsCloseAhead (l : List Char) : Bool :=
  match dropWsRun l with
  | c :: _ => c == rbrace || c == ']'
  | [] => false

/-- Replacement `/,(\s*[\x7d\]])/g → '$1'` — remove commas that directly
precede a closing brace or bracket. -/
def cleanTrailingCommas : List Char → List Char
  | [] => []
  | c :: rest =>
    if c == ',' && wsCloseAhead rest then cleanTrailingCommas rest
    else c :: cleanTrailingCommas rest

/-- Split a character list at its first single quote. -/
def splitAtQuote : List Char → Option (List Char × List Char)
  | [] => none
  | c :: rest =>
    if c == squote then some ([], rest)
    else match splitAtQuote rest with
      | some (a, b) => some (c :: a, b)
      | none => none

/-- Length bound for `splitAtQuote`. -/
theorem splitAtQuote_length_lt :
    ∀ {l a b}, splitAtQuote l = some (a, b) → b.length < l.length := by
  intro l
  induction l with
  | nil => intro a b h; simp [splitAtQuote] at h
  | cons c rest ih =>
    intro a b h
    by_cases hc : c == squote
    · simp only [splitAtQuote, hc, if_pos] at h
      cases h
      simp
    · simp only [splitAtQuote, hc, if_neg, Bool.false_eq_true, not_false_iff] at h
      rcases hsp : splitAtQuote rest with _ | ⟨a', b'⟩ <;> rw [hsp] at h
      · exact absurd h (by simp)
      · simp only [Option.some.injEq, Prod.mk.injEq] at h
        exact Nat.lt_succ_of_lt (h.2 ▸ ih hsp)

/-- Attempt the tail of the quote-rewriting match
`/([\x7b,]\s*)'([^']*)'(\s*[,:])/` after its leading `[\x7b,]`: on success
return the replacement text (with double quotes substituted) and the
remainder after the match. -/
def tryQuoteMatch (l : List Char) : Option (List Char × List Char) :=
  let ws1 := l.takeWhile Char.isWhitespace
  match dropWsRun l with
  | q :: l2 =>
    if q == squote then
      match splitAtQuote l2 with
      | some (inner, l3) =>
        let ws2 := l3.takeWhile Char.isWhitespace
        match dropWsRun l3 with
        | d :: l5 =>
          if d == ',' || d == ':' then
            some (ws1 ++ dquote :: (inner ++ [dquote] ++ ws2 ++ [d]), l5)
          else none
        | [] => none
      | none => none
    else none
  | [] => none

/-- Length bound for `tryQuoteMatch`. -/
theorem tryQuoteMatch_length_lt :
    ∀ {l m rest}, tryQuoteMatch l = some (m, rest) → rest.length < l.length := by
  intro l m rest h
  simp only [tryQuoteMatch] at h
  split at h
  case h_2 => exact absurd h (by simp)
  case h_1 q l2 h1 =>
    split at h
    case isFalse => exact absurd h (by simp)
    case isTrue hq =>
      split at h
      case h_2 => exact absurd h (by simp)
      case h_1 inner l3 h2 =>
        split at h
        case h_2 => exact absurd h (by simp)
        case h_1 d l5 h3 =>
          split at h
          case isFalse => exact absurd h (by simp)
          case isTrue hd =>
            simp only [Option.some.injEq, Prod.mk.injEq] at h
            obtain ⟨-, hrest⟩ := h
            subst hrest
            have hl5 : l5.length < l3.length := by
              have := dropWsRun_length_le l3
              rw [h3] at this
              simp at this
              omega
            have hl3 : l3.length < l2.length := splitAtQuote_length_lt h2
            have hl2 : l2.length < l.length := by
              have := dropWsRun_length_le l
              rw [h1] at this
              simp at this
              omega
            omega

/-- Replacement `/([\x7b,]\s*)'([^']*)'(\s*[,:])/g → '$1"$2"$3'` — rewrite
single-quoted strings to double-quoted ones. -/
def cleanQuotes : List Char → List Char
  | [] => []
  | c :: rest =>
    if c == lbrace || c == ',' then
      match h : tryQuoteMatch rest with
      | some (m, rest') => c :: (m ++ cleanQuotes rest')
      | none => c :: cleanQuotes rest
    else c :: cleanQuotes rest
termination_by l => l.length
decreasing_by
  · exact Nat.lt_succ_of_lt (tryQuoteMatch_length_lt h)
  · simp
  · simp

/-- Replacement `/\/\/.*$/gm → ''` — drop line comments (the newline itself
is kept: `.` does not match it). -/
def cleanLineComments : List Char → List Char
  | [] => []
  | c :: rest =>
    if c == '/' && startsWithChar rest '/' then
      cleanLineComments (rest.dropWhile (· ≠ '\n'))
    else c :: cleanLineComments rest
termination_by l => l.length
decreasing_by
  · exact Nat.lt_succ_of_le (dropWhileLen _ rest)
  · simp

/-- Find the end of a lazy block-comment match: the remainder after the first
`*/`. -/
def findBlockEnd : List Char → Option (List Char)
  | [] => none
  | c :: rest =>
    if c == '*' && startsWithChar rest '/' then some (rest.drop 1)
    else findBlockEnd rest

/-- Length bound for `findBlockEnd`. -/
theorem findBlockEnd_length_lt :
    ∀ {l r}, findBlockEnd l = some r → r.length < l.length := by
  intro l
  induction l with
  | nil => intro r h; simp [findBlockEnd] at h
  | cons c rest ih =>
    intro r h
    by_cases hc : c == '*' && startsWithChar rest '/'
    · simp only [findBlockEnd, hc, if_pos] at h
      cases h
      simpa using Nat.lt_succ_of_le (by simpa using List.length_drop 1 rest ▸ Nat.sub_le _ _)
    · simp only [findBlockEnd, hc, Bool.false_eq_true, not_false_iff, if_neg] at h
      exact Nat.lt_succ_of_lt (ih h)

/-- Replacement `/\/\*[\s\S]*?\*\//g → ''` — drop terminated block comments
(an unterminated `/*` is not a match and is kept). -/
def cleanBlockComments : List Char → List Char
  | [] => []
  | c :: rest =>
    if c == '/' && startsWithChar rest '*' then
      match h : findBlockEnd (rest.drop 1) with
      | some rest' => cleanBlockComments rest'
      | none => c :: cleanBlockComments rest
    else c :: cleanBlockComments rest
termination_by l => l.length
decreasing_by
  · exact Nat.lt_succ_of_lt (Nat.lt_of_lt_of_le (findBlockEnd_length_lt h)
      (by simpa using List.length_drop 1 rest ▸ Nat.sub_le _ _))
  · simp
  · simp

/-- Does a whitespace run followed by `]` begin here?  On success return the
remainder after the `]`. -/
def wsThenRBracket (l : List Char) : Option (List Char) :=
  match dropWsRun l with
  | c :: rest => if c == ']' then some rest else none
  | [] => none

/-- Length bound for `wsThenRBracket`. -/
theorem wsThenRBracket_length_lt :
    ∀ {l r}, wsThenRBracket l = some r → r.length < l.length := by
  intro l r h
  unfold wsThenRBracket at h
  rcases h1 : dropWsRun l with _ | ⟨c, rest⟩ <;> rw [h1] at h
  · exact absurd h (by simp)
  · by_cases hc : c == ']'
    · simp only [hc, if_pos, Option.some.injEq] at h
      subst h
      have := dropWsRun_length_le l
      rw [h1] at this
      simp at this
      omega
    · simp [hc] at h

/-- Replacement `/\[\s*\]/g → '[]'` — normalize empty arrays. -/
def cleanEmptyArrays : List Char → List Char
  | [] => []
  | c :: rest =>
    if c == '[' then
      match h : wsThenRBracket rest with
      | some rest' => '[' :: ']' :: cleanEmptyArrays rest'
      | none => c :: cleanEmptyArrays rest
    else c :: cleanEmptyArrays rest
termination_by l => l.length
decreasing_by
  · exact Nat.lt_succ_of_lt (wsThenRBracket_length_lt h)
  · simp
  · simp

/-- `cleanJsonString` of `openaiService.ts`, in source order. -/
def cleanJsonChars (l : List Char) : List Char :=
  cleanEmptyArrays (cleanBlockComments (cleanLineComments (cleanQuotes (cleanTrailingCommas l))))

/-! ## openaiService.ts — enhancement protocol -/

/-- Outcome of one chat-completion call of the external model: the call threw
(network error, rate limit, ...) or returned message content.  A response
whose `choices[0]?.message?.content` is missing behaves exactly like empty
content (both are falsy), so `ok ""` covers it. -/
inductive CallResult where
  | err
  | ok (content : String)

/-- The external model provider, indexed by the global call number. -/
def Oracle := Nat → CallResult

/-- The JavaScript runtime's `JSON.parse` (`none` models a thrown
`SyntaxError`). -/
def JsonParse := String → Option Json

/-- The response-text processing of the main enhancement attempt: trim, strip
code fences, cut prose before the first brace, then the truncation and
object-shape checks; returns the candidate JSON text or the thrown message. -/
def processMainContent (content : String) : Except String (List Char) :=
  let j0 := (jsTrim content).data
  let j1 := stripFences j0
  let j2 := cutToFirstLB j1
  if !endsWithChar j2 rbrace then .error "JSON response appears to be truncated"
  else if !(startsWithChar j2 lbrace && endsWithChar j2 rbrace) then
    .error "Response does not contain valid JSON object"
  else .ok j2

/-- One main-loop attempt body (the `try` of the `while` loop): call, check
content, process, parse, validate. -/
def attemptOnce (parse : JsonParse) (r : CallResult) : Except String Json :=
  match r with
  | .err => .error "call failed"
  | .ok content =>
    if content = "" then .error "Empty response from OpenAI"
    else
      match processMainContent content with
      | .error e => .error e
      | .ok chars =>
        match parse (String.mk chars) with
        | none => .error "JSON.parse failed"
        | some parsed =>
          if validateResponse parsed then .ok parsed
          else .error "Invalid response schema"

/-- The dedicated repair call issued on the penultimate attempt: extract the
greedy brace span, parse, and keep the result only when it validates; every
failure inside it is caught and the loop continues. -/
def attemptRepair (parse : JsonParse) (r : CallResult) : Option Json :=
  match r with
  | .err => none
  | .ok content =>
    if content = "" then none
    else
      let trimmed := (jsTrim content).data
      let candidate :=
        match extractBracesSpan content.data with
        | some m => m
        | none => trimmed
      match parse (String.mk candidate) with
      | none => none
      | some p => if validateResponse p then some p else none

/-- The final degraded call using the simplified schema; any failure along
the way yields the locally synthesized fallback response. -/
def attemptSimple (parse : JsonParse) (r : CallResult) (phase : Phase) : Json :=
  match r with
  | .err => createFallbackResponse phase
  | .ok content =>
    if content = "" then createFallbackResponse phase
    else
      let s1 := (jsTrim content).data
      let s2 :=
        match idxOfChar lbrace s1 with
        | some i => if i > 0 then s1.drop i else s1
        | none => s1
      let s3 :=
        match extractBracesSpan s2 with
        | some m => m
        | none => s2
      let s4 := cleanJsonChars s3
      if startsWithChar s4 lbrace && endsWithChar s4 rbrace then
        match parse (String.mk s4) with
        | none => createFallbackResponse phase
        | some p =>
          match convertSimpleToFullResponse p phase with
          | .ok full => full
          | .error _ => createFallbackResponse phase
      else createFallbackResponse phase

/-- The `while (attempts < maxAttempts)` loop of `performEnhancement`, with
`fuel + 1` remaining attempts (so `attempts = 3 - (fuel + 1)` have failed so
far) and `k` the next global call number.  Returns the response together with
the next call number.  The `fuel = 0` base is the unreachable
`return createFallbackResponse` after the loop. -/
def performGo (parse : JsonParse) (oracle : Oracle) (phase : Phase) :
    Nat → Nat → Json × Nat
  | 0, k => (createFallbackResponse phase, k)
  | fuel + 1, k =>
    match attemptOnce parse (oracle k) with
    | .ok valid => (valid, k + 1)
    | .error _ =>
      if fuel = 0 then
        (attemptSimple parse (oracle (k + 1)) phase, k + 2)
      else if fuel = 1 then
        match attemptRepair parse (oracle (k + 1)) with
        | some valid => (valid, k + 2)
        | none => performGo parse oracle phase fuel (k + 2)
      else performGo parse oracle phase fuel (k + 1)

/-- `performEnhancement` (the prompt strings sent to the model do not affect
control flow and live inside the oracle; `task` and `analysis` feed only
those prompts). -/
def performEnhancement (parse : JsonParse) (oracle : Oracle) (phase : Phase)
    (_task : String) (_analysis : TaskAnalysis) (k : Nat) : Json × Nat :=
  performGo parse oracle phase 3 k

/-- `CacheEntry` of `types.ts`. -/
structure SCacheEntry where
  response : Json
  timestamp : Int
  ttl : Int

/-- the 24-hour cache TTL (milliseconds). -/
def serviceTTL : Int := 24 * 60 * 60 * 1000

/-- Mutable state of an `OpenAIEnhancementService` instance: whether the
constructor received an API key (`client`), the response cache, and the
number of external model calls issued so far (the observation a mocked model
counts).  The admission gate (`activeRequests`, `requestQueue`) is omitted:
in the sequential one-call-at-a-time semantics modelled here `waitForSlot`
always returns immediately and the queue stays empty. -/
structure ServiceState where
  client : Bool
  cache : List (String × SCacheEntry)
  calls : Nat

/-- Insertion of `x` into a sorted list of strings. -/
def insertStr (x : String) : List String → List String
  | [] => [x]
  | y :: ys => if x ≤ y then x :: y :: ys else y :: insertStr x ys

/-- JavaScript `Array.prototype.sort()` on strings (sorted permutation). -/
def sortStrs (l : List String) : List String := l.foldr insertStr []

/-- `generateCacheKey`: the sha-256 content hash is modelled by its preimage
string (the hash is injective for the model's purposes). -/
def generateCacheKey (task phaseName : String) (files : List FileChange) : String :=
  let normalizedTask := jsTrim (jsToLower task)
  let filePaths := joinSep "," (sortStrs (files.map (·.path)))
  normalizedTask ++ "|" ++ phaseName ++ "|" ++ filePaths

/-- `Map.prototype.set`: replace-or-insert. -/
def mapSet (m : List (String × SCacheEntry)) (k : String) (v : SCacheEntry) :
    List (String × SCacheEntry) :=
  (k, v) :: m.filter fun p => !(p.1 == k)

/-- `enhancePhase` of `openaiService.ts` as a state transformer.  `now` is
`Date.now()` during the call.  Throwing when no client is configured is the
`.error` case. -/
def enhancePhase (parse : JsonParse) (oracle : Oracle) (st : ServiceState)
    (now : Int) (phase : Phase) (task : String) (analysis : TaskAnalysis) :
    Except String (Json × ServiceState) :=
  if !st.client then .error "OpenAI client not initialized"
  else
    let cacheKey := generateCacheKey task phase.name phase.files
    let hit :=
      match st.cache.lookup cacheKey with
      | some cached =>
        if now - cached.timestamp < cached.ttl then some cached.response else none
      | none => none
    match hit with
    | some response => .ok (response, st)
    | none =>
      let rk := performEnhancement parse oracle phase task analysis st.calls
      .ok (rk.1,
        { st with
          cache := mapSet st.cache cacheKey ⟨rk.1, now, serviceTTL⟩
          calls := rk.2 })

/-! ## planOrchestrator.ts — the two background-enhancement variants

The batch variant issues one model call for all phases
(`enhanceAllPhases`); the sequential variant enhances phases strictly in
pipeline order.  Model-call outcomes are quantified parameters; the
reachable states of a run are its snapshots at suspension points.
-/

/-- One file entry of an `EnhancedPhase` (`types.ts`). -/
structure EnhancedFile where
  path : String
  details : List String
deriving DecidableEq, Repr

/-- `EnhancedPhase` of `types.ts`. -/
structure EnhancedPhase where
  id : String
  name : String
  description : String
  reasoning : String
  files : List EnhancedFile
  estimatedTime : Option String := none
deriving DecidableEq, Repr

/-- Fields of an enhancement-service result that the orchestrator reads. -/
structure EnhancementResult where
  description : String
  reasoning : String
  files : List EnhancedFile
deriving DecidableEq, Repr

/-- Values of the `enhancedPhases` map: an `EnhancedPhase` or the literal
string `'failed'` allowed by its type annotation. -/
inductive EnhancedOrFailed where
  | enhanced (e : EnhancedPhase)
  | failedMark
deriving DecidableEq, Repr

/-- Progress counter of a `PlanEnhancementState`. -/
structure Progress where
  current : Nat
  total : Nat
deriving DecidableEq, Repr

/-- `PlanEnhancementState` of the orchestrator (both variants declare the
identical interface); the two index-keyed objects are association lists. -/
structure PlanEnhancementState where
  taskHash : String
  basePlan : Plan
  analysis : TaskAnalysis
  enhancedPhases : List (Nat × EnhancedOrFailed)
  phaseStatuses : List (Nat × PhaseStatus)
  progress : Progress
  isComplete : Bool
  startTime : Int

/-- Keyed in-place assignment `m[k] = v` on an index-keyed object. -/
def natMapSet {α : Type} (m : List (Nat × α)) (k : Nat) (v : α) : List (Nat × α) :=
  (k, v) :: m.filter fun p => !(p.1 == k)

/-- `state.phaseStatuses[i] = s`. -/
def setStatus (st : PlanEnhancementState) (i : Nat) (s : PhaseStatus) :
    PlanEnhancementState :=
  { st with phaseStatuses := natMapSet st.phaseStatuses i s }

/-- `state.enhancedPhases[i] = v`. -/
def setEnhanced (st : PlanEnhancementState) (i : Nat) (v : EnhancedOrFailed) :
    PlanEnhancementState :=
  { st with enhancedPhases := natMapSet st.enhancedPhases i v }

/-- The fresh `PlanEnhancementState` registered by `generateCompletePlan`
(step 2): empty maps, progress `0 / phaseCount`, not complete. -/
def initEnhancementState (taskHash : String) (basePlan : Plan)
    (analysis : TaskAnalysis) (startTime : Int) : PlanEnhancementState :=
  { taskHash := taskHash
  , basePlan := basePlan
  , analysis := analysis
  , enhancedPhases := []
  , phaseStatuses := []
  , progress := { current := 0, total := basePlan.phases.length }
  , isComplete := false
  , startTime := startTime }

/-- Batch variant: the pre-call loop setting every phase to `enhancing`. -/
def markAllEnhancing (st : PlanEnhancementState) : PlanEnhancementState :=
  (List.range st.basePlan.phases.length).foldl (fun s i => setStatus s i .enhancing) st

/-- Batch variant: the catch-branch loop marking every phase failed. -/
def markAllFailed (st : PlanEnhancementState) : PlanEnhancementState :=
  (List.range st.basePlan.phases.length).foldl
    (fun s i => setStatus s i .enhancement_failed) st

/-- Batch variant: the result-processing loop (`if (phase && enhanced)`
stores the converted `EnhancedPhase` and marks `enhanced`, otherwise marks
`enhancement_failed`). -/
def processBatchResults (st : PlanEnhancementState)
    (batchResults : List (Option EnhancementResult)) : PlanEnhancementState :=
  (List.range st.basePlan.phases.length).foldl
    (fun s i =>
      match s.basePlan.phases.get? i, batchResults.get? i with
      | some phase, some (some enhanced) =>
        let enhancedPhase : EnhancedPhase :=
          { id := phase.id
          , name := phase.name
          , description := enhanced.description
          , reasoning := enhanced.reasoning
          , files := enhanced.files
          , estimatedTime := phase.estimatedTime }
        setStatus (setEnhanced s i (.enhanced enhancedPhase)) i .enhanced
      | _, _ => setStatus s i .enhancement_failed)
    st

/-- `enhancePlanAsync` of the batch orchestrator variant, given the outcome
of the single `enhanceAllPhases` call (`.error` models any thrown batch
exception; an `.ok` list may be short or carry missing entries). -/
def enhancePlanAsyncBatch (st : PlanEnhancementState)
    (outcome : Except Unit (List (Option EnhancementResult))) :
    PlanEnhancementState :=
  let stPre := markAllEnhancing st
  let stDone :=
    match outcome with
    | .ok batchResults =>
      let s := processBatchResults stPre batchResults
      { s with progress := { s.progress with current := s.basePlan.phases.length } }
    | .error _ =>
      let s := markAllFailed stPre
      { s with progress := { s.progress with current := s.basePlan.phases.length } }
  { stDone with
    isComplete := true
    progress := { stDone.progress with current := stDone.basePlan.phases.length } }

/-- Reachable snapshots of one batch-variant run: the registered state, the
state observable while the batch call is in flight, and the final state. -/
def batchTrace (st : PlanEnhancementState)
    (outcome : Except Unit (List (Option EnhancementResult))) :
    List PlanEnhancementState :=
  [st, markAllEnhancing st, enhancePlanAsyncBatch st outcome]

/-- Sequential variant: the loop body for index `i` given that phase's
model-call outcome, returning the state at its suspension point (when the
iteration suspends) and the state after the iteration. -/
def seqIterStep (s : PlanEnhancementState) (i : Nat)
    (outcome : Except Unit EnhancementResult) :
    Option PlanEnhancementState × PlanEnhancementState :=
  match s.basePlan.phases.get? i with
  | none =>
    let s1 := setStatus s i .enhancement_failed
    (none, { s1 with progress := { s1.progress with current := i + 1 } })
  | some phase =>
    let sAwait := setStatus s i .enhancing
    match outcome with
    | .ok enhanced =>
      let enhancedPhase : EnhancedPhase :=
        { id := phase.id
        , name := phase.name
        , description := enhanced.description
        , reasoning := enhanced.reasoning
        , files := enhanced.files
        , estimatedTime := phase.estimatedTime }
      let s2 := setStatus (setEnhanced sAwait i (.enhanced enhancedPhase)) i .enhanced
      (some sAwait, { s2 with progress := { s2.progress with current := i + 1 } })
    | .error _ =>
      let s2 := setStatus sAwait i .enhancement_failed
      (some sAwait, { s2 with progress := { s2.progress with current := i + 1 } })

/-- Sequential variant: run `remaining` loop iterations starting at index
`i`, collecting the suspension-point snapshots. -/
def seqIter (outcomes : Nat → Except Unit EnhancementResult) :
    Nat → Nat → PlanEnhancementState →
    PlanEnhancementState × List PlanEnhancementState
  | 0, _, s => (s, [])
  | remaining + 1, i, s =>
    let step := seqIterStep s i (outcomes i)
    let rest := seqIter outcomes remaining (i + 1) step.2
    match step.1 with
    | some snap => (rest.1, snap :: rest.2)
    | none => rest

/-- `enhancePlanAsync` of the sequential orchestrator variant: the loop over
all phases followed by the completion block; returns the final state and the
suspension-point snapshots. -/
def enhancePlanAsyncSeq (outcomes : Nat → Except Unit EnhancementResult)
    (st : PlanEnhancementState) :
    PlanEnhancementState × List PlanEnhancementState :=
  let ran := seqIter outcomes st.basePlan.phases.length 0 st
  ({ ran.1 with
      isComplete := true
      progress := { ran.1.progress with current := ran.1.basePlan.phases.length } }
  , ran.2)

/-- Reachable snapshots of one sequential-variant run. -/
def seqTrace (outcomes : Nat → Except Unit EnhancementResult)
    (st : PlanEnhancementState) : List PlanEnhancementState :=
  st :: (enhancePlanAsyncSeq outcomes st).2 ++ [(enhancePlanAsyncSeq outcomes st).1]

/-- Consistency of a `PlanEnhancementState`: an entry exists at index `i` of
`enhancedPhases` iff `phaseStatuses[i]` is `enhanced`, and the literal
`'failed'` marker is never stored. -/
def stateConsistent (st : PlanEnhancementState) : Prop :=
  (∀ i : Nat, (st.enhancedPhases.lookup i).isSome = true ↔
      st.phaseStatuses.lookup i = some .enhanced) ∧
  (∀ i : Nat, st.enhancedPhases.lookup i ≠ some .failedMark)

/-- Topological well-formedness of a phase list: every dependency of every
phase is the id of a phase strictly earlier in the list (`seen` carries the
ids already placed, so no self or forward reference can pass). -/
def depsOkAux (seen : List String) : List Phase → Bool
  | [] => true
  | p :: rest =>
    p.dependencies.all (fun d => seen.contains d) && depsOkAux (seen ++ [p.id]) rest

/-! # Theorems

Helper lemmas first, then one theorem per claim (with witnesses and
counterexamples where required).
-/

/-! ## Projections of the generated phases -/

@[simp] theorem generateSetupPhase_id (a : TaskAnalysis) :
    (generateSetupPhase a).id = "phase-setup" := rfl

@[simp] theorem generateDatabasePhase_id (a : TaskAnalysis) :
    (generateDatabasePhase a).id = "phase-database" := rfl

@[simp] theorem generateAuthPhase_id (a : TaskAnalysis) :
    (generateAuthPhase a).id = "phase-auth" := rfl

@[simp] theorem generateBackendPhase_id (a : TaskAnalysis) :
    (generateBackendPhase a).id = "phase-backend" := rfl

@[simp] theorem generateFrontendPhase_id (a : TaskAnalysis) :
    (generateFrontendPhase a).id = "phase-frontend" := rfl

@[simp] theorem generateTestingPhase_id (a : TaskAnalysis) :
    (generateTestingPhase a).id = "phase-testing" := rfl

@[simp] theorem generateSetupPhase_deps (a : TaskAnalysis) :
    (generateSetupPhase a).dependencies = [] := rfl

@[simp] theorem generateDatabasePhase_deps (a : TaskAnalysis) :
    (generateDatabasePhase a).dependencies = ["phase-setup"] := rfl

@[simp] theorem generateAuthPhase_deps (a : TaskAnalysis) :
    (generateAuthPhase a).dependencies = ["phase-setup", "phase-database"] := rfl

@[simp] theorem generateBackendPhase_deps (a : TaskAnalysis) :
    (generateBackendPhase a).dependencies =
      if a.hasDatabase then ["phase-database"] else ["phase-setup"] := rfl

@[simp] theorem generateFrontendPhase_deps (a : TaskAnalysis) :
    (generateFrontendPhase a).dependencies =
      if a.hasBackend then ["phase-backend"] else ["phase-setup"] := rfl

@[simp] theorem generateTestingPhase_deps (a : TaskAnalysis) :
    (generateTestingPhase a).dependencies =
      if a.hasFrontend then ["phase-frontend"]
      else if a.hasBackend then ["phase-backend"]
      else ["phase-setup"] := rfl

/-! ## Projections of analyzeTask -/

theorem analyzeTask_hasAuth (s : String) :
    (analyzeTask s).hasAuth = (baseAnalysisOf s).hasAuth := by
  simp only [analyzeTask]
  split <;> split <;> split <;> rfl

theorem analyzeTask_hasDatabase (s : String) :
    (analyzeTask s).hasDatabase = (baseAnalysisOf s).hasDatabase := by
  simp only [analyzeTask]
  split <;> split <;> split <;> rfl

theorem analyzeTask_hasBackend (s : String) :
    (analyzeTask s).hasBackend = (baseAnalysisOf s).hasBackend := by
  simp only [analyzeTask]
  split <;> split <;> split <;> rfl

theorem analyzeTask_hasFrontend (s : String) :
    (analyzeTask s).hasFrontend = (baseAnalysisOf s).hasFrontend := by
  simp only [analyzeTask]
  split <;> split <;> split <;> rfl

/-- In every analysis produced by `analyzeTask`, an auth feature forces the
database flag (`hasDatabase` has `features.includes('auth')` as a disjunct). -/
theorem analyzeTask_auth_implies_database (s : String) :
    (analyzeTask s).hasAuth = true → (analyzeTask s).hasDatabase = true := by
  rw [analyzeTask_hasAuth, analyzeTask_hasDatabase]
  unfold baseAnalysisOf
  intro h
  have hm : "auth" ∈ detectFeatures (jsToLower s) := by simpa using h
  simp [hm]

/-! ## C1/C2 shape lemmas -/

/-- Shape of `generatePhases` for an arbitrary analysis: setup is the first
element, testing the last, and each occurs exactly once. -/
theorem generatePhases_shape (a : TaskAnalysis) :
    generatePhases a ≠ [] ∧
    ((generatePhases a).head?.map Phase.id) = some "phase-setup" ∧
    ((generatePhases a).getLast?.map Phase.id) = some "phase-testing" ∧
    ((generatePhases a).filter fun p => p.id == "phase-setup").length = 1 ∧
    ((generatePhases a).filter fun p => p.id == "phase-testing").length = 1 := by
  unfold generatePhases
  cases hDB : a.hasDatabase <;> cases hA : a.hasAuth <;> cases hB : a.hasBackend <;>
    cases hF : a.hasFrontend <;>
      simp [List.filter, List.getLast?]

/-- Dependency well-formedness of `generatePhases` for any analysis whose
auth flag implies its database flag. -/
theorem generatePhases_depsOk (a : TaskAnalysis)
    (hImp : a.hasAuth = true → a.hasDatabase = true) :
    depsOkAux [] (generatePhases a) = true := by
  unfold generatePhases
  cases hDB : a.hasDatabase <;> cases hA : a.hasAuth <;> cases hB : a.hasBackend <;>
    cases hF : a.hasFrontend <;>
      first
      | (simp [depsOkAux, hDB, hB, hF]; done)
      | exact absurd (hImp hA) (by simp [hDB])

/-- The phases of a plan are exactly the generated pipeline. -/
theorem planTask_phases (now : Int) (task : String) :
    (planTask now task).phases = generatePhases (analyzeTask task) := rfl

/-- C1.  For every task string, the phases list of the plan returned by
`planTask` is non-empty, contains exactly one phase with id `phase-setup` and
exactly one with id `phase-testing`, the setup phase is the first element and
the testing phase is the last element. -/
theorem c1_setup_first_testing_last_unique (now : Int) (task : String) :
    (planTask now task).phases ≠ [] ∧
    ((planTask now task).phases.head?.map Phase.id) = some "phase-setup" ∧
    ((planTask now task).phases.getLast?.map Phase.id) = some "phase-testing" ∧
    ((planTask now task).phases.filter fun p => p.id == "phase-setup").length = 1 ∧
    ((planTask now task).phases.filter fun p => p.id == "phase-testing").length = 1 := by
  rw [planTask_phases]
  exact generatePhases_shape (analyzeTask task)

/-- C2.  For every task string, every dependency of every phase of
`planTask task` is the id of a phase strictly earlier in the phases array (so
there is no forward reference, no self reference and no dangling id; in
particular the auth phase's unconditional dependency on `phase-database`
refers to a phase present and earlier). -/
theorem c2_dependencies_topologically_consistent (now : Int) (task : String) :
    depsOkAux [] (planTask now task).phases = true := by
  rw [planTask_phases]
  exact generatePhases_depsOk (analyzeTask task) (analyzeTask_auth_implies_database task)

/-! ## C4 — the `context api` disambiguation -/

theorem analyzeTask_features (s : String) :
    (analyzeTask s).features = (baseAnalysisOf s).features := by
  simp only [analyzeTask]
  split <;> split <;> split <;> rfl

theorem analyzeTask_projectType (s : String) :
    (analyzeTask s).projectType = (baseAnalysisOf s).projectType := by
  simp only [analyzeTask]
  split <;> split <;> split <;> rfl

theorem baseAnalysisOf_features (s : String) :
    (baseAnalysisOf s).features = detectFeatures (jsToLower s) := rfl

theorem baseAnalysisOf_projectType (s : String) :
    (baseAnalysisOf s).projectType = detectProjectType (jsToLower s) := rfl

/-- `featStep` only ever appends its own feature name. -/
theorem mem_featStep {input : String} {d : List String} {fk : String × List String}
    {x : String} (h : x ∈ featStep input d fk) : x ∈ d ∨ x = fk.1 := by
  unfold featStep at h
  split_ifs at h
  · exact Or.inl h
  · rcases List.mem_append.mp h with h' | h'
    · exact Or.inl h'
    · exact Or.inr (by simpa using h')
  · exact Or.inl h

/-- `featStep` never removes a detected feature. -/
theorem featStep_preserves_mem {input : String} {d : List String}
    {fk : String × List String} {x : String} (h : x ∈ d) :
    x ∈ featStep input d fk := by
  unfold featStep
  split_ifs
  · exact h
  · exact List.mem_append_left _ h
  · exact h

/-- Once `frontend` was detected from a `context api` phrase, the catalog
loop can never add the `api` feature: the `api` iteration is skipped and
every other iteration adds a different name. -/
theorem api_not_in_featFold {input : String}
    (hctx : jsIncludes input "context api" = true) :
    ∀ (L : List (String × List String)) (acc : List String),
      "frontend" ∈ acc → "api" ∉ acc → "api" ∉ L.foldl (featStep input) acc := by
  intro L
  induction L with
  | nil => intro acc _ ha; simpa using ha
  | cons fk rest ih =>
    intro acc hf ha
    simp only [List.foldl_cons]
    have hstep : "api" ∉ featStep input acc fk := by
      by_cases hfk : fk.1 = "api"
      · have heq : featStep input acc fk = acc := by
          unfold featStep
          rw [if_pos]
          simp only [hfk, hctx, Bool.and_true, Bool.and_eq_true, beq_self_eq_true,
            true_and]
          simpa using hf
        rw [heq]
        exact ha
      · intro hmem
        rcases mem_featStep hmem with h | h
        · exact ha h
        · exact hfk h.symm
    exact ih (featStep input acc fk) (featStep_preserves_mem hf) hstep

/-- With a `context api` phrase present and none of the four explicit REST
phrases, `detectFeatures` does not emit the `api` tag. -/
theorem detectFeatures_no_api {input : String}
    (hctx : jsIncludes input "context api" = true)
    (hra : jsIncludes input "rest api" = false)
    (hre : jsIncludes input "rest endpoint" = false)
    (hba : jsIncludes input "backend api" = false)
    (hsa : jsIncludes input "server api" = false) :
    "api" ∉ detectFeatures input := by
  unfold detectFeatures
  simp only [hctx, hra, hre, hba, hsa, Bool.true_or, if_pos, Bool.or_self,
    Bool.false_or, Bool.false_and, Bool.or_false]
  simp only [Bool.false_eq_true, if_false]
  exact api_not_in_featFold hctx featureCatalog ["frontend"] (by simp) (by simp)

/-- With a `context api` phrase present, `detectProjectType` returns either
`fullstack` or `web-app`, never `api`. -/
theorem detectProjectType_ne_api {input : String}
    (hctx : jsIncludes input "context api" = true) :
    detectProjectType input ≠ .api := by
  unfold detectProjectType
  split_ifs with h1 h2 h3
  · simp
  · simp
  · exact absurd (by simp [hctx]) h2
  · exact absurd (by simp [hctx]) h2

/-- C4 counterexample.  On the input `graphql` the analyzer assigns the
`api` feature tag although the input contains none of the phrases
`rest api`, `backend api`, `server api`, `rest endpoint` — so those phrases
are not the only triggers of the tag. -/
theorem c4_counterexample :
    (analyzeTask "graphql").features.contains "api" = true ∧
    jsIncludes "graphql" "rest api" = false ∧
    jsIncludes "graphql" "backend api" = false ∧
    jsIncludes "graphql" "server api" = false ∧
    jsIncludes "graphql" "rest endpoint" = false := by
  refine ⟨?_, ?_, ?_, ?_, ?_⟩ <;> decide

/-- C4 as amended.  The four phrases gate only the bare `api` keyword; other
keywords (`graphql`, `service`, `backend`, ...) can also assign the api
project type or feature tag.  What does hold is the `context api`
disambiguation: when the lowercased input contains `context api` and none of
the four phrases, the analyzer assigns neither the `api` project type nor
the `api` feature tag. -/
theorem c4_context_api_never_api (s : String)
    (hctx : jsIncludes (jsToLower s) "context api" = true)
    (hra : jsIncludes (jsToLower s) "rest api" = false)
    (hre : jsIncludes (jsToLower s) "rest endpoint" = false)
    (hba : jsIncludes (jsToLower s) "backend api" = false)
    (hsa : jsIncludes (jsToLower s) "server api" = false) :
    (analyzeTask s).projectType ≠ .api ∧
    (analyzeTask s).features.contains "api" = false := by
  constructor
  · rw [analyzeTask_projectType, baseAnalysisOf_projectType]
    exact detectProjectType_ne_api hctx
  · rw [analyzeTask_features, baseAnalysisOf_features]
    have := detectFeatures_no_api hctx hra hre hba hsa
    simpa using this

/-- C4 witness: the amended theorem applied to the spec's own disambiguation
example. -/
theorem c4_context_api_never_api_witness :
    (analyzeTask "Build a React app with context API for state management").projectType ≠ .api ∧
    (analyzeTask "Build a React app with context API for state management").features.contains "api" = false :=
  c4_context_api_never_api "Build a React app with context API for state management"
    (by decide) (by decide) (by decide) (by decide) (by decide)

/-! ## C5 — tie-breaking in the decision engine -/

/-- Helper clamp evaluation: any pre-clamp confidence at least 1 clamps to
exactly 0.95. -/
theorem clampTo095 {x : ℚ} (hx : 1 ≤ x) : max 0.1 (min 0.95 x) = 0.95 := by
  rw [min_eq_left (by linarith), max_eq_right (by norm_num)]

theorem jsRound2_095 : jsRound2 0.95 = 0.95 := by norm_num [jsRound2]

theorem jsRound2_le_095 {x : ℚ} (h : x ≤ 0.95) : jsRound2 x ≤ 0.95 := by
  have h1 : (⌊x * 100 + 1 / 2⌋ : ℤ) ≤ 95 := by
    calc (⌊x * 100 + 1 / 2⌋ : ℤ) ≤ ⌊(95.5 : ℚ)⌋ := Int.floor_le_floor (by linarith)
    _ = 95 := by norm_num
  unfold jsRound2
  rw [div_le_iff (by norm_num)]
  calc ((⌊x * 100 + 1 / 2⌋ : ℤ) : ℚ) ≤ (95 : ℚ) := by exact_mod_cast h1
  _ = 0.95 * 100 := by norm_num

/-- An analysis on which the two database scores tie at exactly zero. -/
def tieAnalysisDb : TaskAnalysis :=
  { projectType := .cli, features := [], complexity := .medium
  , hasAuth := false, hasDatabase := false, hasFrontend := false, hasBackend := false
  , hasRealtime := false, hasFastAPI := false, hasFintech := false
  , hasHealthcare := false, hasEcommerce := false }

/-- An analysis on which the two backend scores tie at exactly 0.3. -/
def tieAnalysisBe : TaskAnalysis :=
  { projectType := .cli, features := ["api"], complexity := .simple
  , hasAuth := false, hasDatabase := false, hasFrontend := false, hasBackend := false
  , hasRealtime := false, hasFastAPI := false, hasFintech := false
  , hasHealthcare := false, hasEcommerce := false }

/-- C5 counterexample.  On an exact score tie the SECOND-listed candidate
wins, not the first: `analyzeDatabase` recommends MongoDB (not PostgreSQL)
when the scores tie, and `analyzeBackend` recommends FastAPI (not Node.js)
when the scores tie, because the comparison is strict (`>`). -/
theorem c5_counterexample :
    (databaseSqlScore tieAnalysisDb = databaseNosqlScore tieAnalysisDb ∧
      (analyzeDatabase tieAnalysisDb).recommendation ≠ "PostgreSQL" ∧
      (analyzeDatabase tieAnalysisDb).recommendation = "MongoDB") ∧
    (backendNodejsScore tieAnalysisBe = backendFastapiScore tieAnalysisBe ∧
      (analyzeBackend tieAnalysisBe).recommendation ≠ "Node.js with Express" ∧
      (analyzeBackend tieAnalysisBe).recommendation = "Python with FastAPI") := by
  refine ⟨⟨?_, ?_, ?_⟩, ?_, ?_, ?_⟩
  · simp [databaseSqlScore, databaseNosqlScore, tieAnalysisDb]
  · simp [analyzeDatabase, databaseSqlScore, databaseNosqlScore, tieAnalysisDb, dbRuleNosql]
  · simp [analyzeDatabase, databaseSqlScore, databaseNosqlScore, tieAnalysisDb, dbRuleNosql]
  · simp [backendNodejsScore, backendFastapiScore, tieAnalysisBe]
  · simp [analyzeBackend, backendNodejsScore, backendFastapiScore, tieAnalysisBe, beRuleFastapi]
  · simp [analyzeBackend, backendNodejsScore, backendFastapiScore, tieAnalysisBe, beRuleFastapi]

/-- C5 as amended.  In each axis the candidate with the strictly higher
score is recommended; on an exact tie the SECOND-listed candidate wins
(MongoDB for the database axis, Python with FastAPI for the backend axis),
because the winner test is the strict comparison `score1 > score2`. -/
theorem c5_strict_winner_tie_second (a : TaskAnalysis) :
    (databaseNosqlScore a < databaseSqlScore a →
      (analyzeDatabase a).recommendation = "PostgreSQL") ∧
    (databaseSqlScore a ≤ databaseNosqlScore a →
      (analyzeDatabase a).recommendation = "MongoDB") ∧
    (backendFastapiScore a < backendNodejsScore a →
      (analyzeBackend a).recommendation = "Node.js with Express") ∧
    (backendNodejsScore a ≤ backendFastapiScore a →
      (analyzeBackend a).recommendation = "Python with FastAPI") := by
  refine ⟨fun h => ?_, fun h => ?_, fun h => ?_, fun h => ?_⟩
  · simp only [analyzeDatabase]
    rw [if_pos h]
    rfl
  · simp only [analyzeDatabase]
    rw [if_neg (not_lt.mpr h)]
    rfl
  · simp only [analyzeBackend]
    rw [if_pos h]
    rfl
  · simp only [analyzeBackend]
    rw [if_neg (not_lt.mpr h)]
    rfl

/-- C5 witness: the amended theorem applied at concrete analyses, on a
strict-winner side and on a tie side. -/
theorem c5_strict_winner_witness :
    (databaseNosqlScore { tieAnalysisDb with hasAuth := true } <
        databaseSqlScore { tieAnalysisDb with hasAuth := true } ∧
      (analyzeDatabase { tieAnalysisDb with hasAuth := true }).recommendation = "PostgreSQL") ∧
    (databaseSqlScore tieAnalysisDb ≤ databaseNosqlScore tieAnalysisDb ∧
      (analyzeDatabase tieAnalysisDb).recommendation = "MongoDB") := by
  have h1 : databaseNosqlScore { tieAnalysisDb with hasAuth := true } <
      databaseSqlScore { tieAnalysisDb with hasAuth := true } := by
    simp [databaseSqlScore, databaseNosqlScore, tieAnalysisDb] <;> norm_num [min_def, max_def]
  have h2 : databaseSqlScore tieAnalysisDb ≤ databaseNosqlScore tieAnalysisDb := by
    simp [databaseSqlScore, databaseNosqlScore, tieAnalysisDb] <;> norm_num [min_def, max_def]
  exact ⟨⟨h1, (c5_strict_winner_tie_second _).1 h1⟩,
    ⟨h2, (c5_strict_winner_tie_second _).2.1 h2⟩⟩

theorem databaseSqlScore_fintech_ge {a : TaskAnalysis} (h : a.hasFintech = true) :
    (0.8 : ℚ) ≤ databaseSqlScore a := by
  simp only [databaseSqlScore, h, if_true]
  refine le_min ?_ (by norm_num)
  split_ifs <;> norm_num

theorem databaseNosqlScore_fintech_le {a : TaskAnalysis} (h : a.hasFintech = true) :
    databaseNosqlScore a ≤ (0.6 : ℚ) := by
  simp only [databaseNosqlScore, h, if_true]
  refine max_le (by norm_num) (le_trans (min_le_left _ _) ?_)
  split_ifs <;> norm_num

set_option maxHeartbeats 1600000 in
theorem calcDbConf_fintech {a : TaskAnalysis} {b : ℚ} (h : a.hasFintech = true)
    (hbase : (0.8 : ℚ) ≤ b)
    (hdiff : (0.2 : ℚ) ≤ |databaseSqlScore a - databaseNosqlScore a|) :
    calculateDatabaseConfidence a true b = 0.95 := by
  unfold calculateDatabaseConfidence
  rw [clampTo095]
  simp only [h, eq_self_iff_true, and_true, true_and, not_true, and_false, false_and,
    if_false, sub_zero, ite_true, ite_false]
  split_ifs <;> linarith

theorem analyzeDatabase_fintech_confidence {a : TaskAnalysis} (h : a.hasFintech = true) :
    (analyzeDatabase a).confidence = 0.95 := by
  have hsql := databaseSqlScore_fintech_ge h
  have hnosql := databaseNosqlScore_fintech_le h
  have hgt : databaseNosqlScore a < databaseSqlScore a := by linarith
  have hdiff : (0.2 : ℚ) ≤ |databaseSqlScore a - databaseNosqlScore a| :=
    le_trans (by linarith) (le_abs_self _)
  have hbase : (0.8 : ℚ) ≤ max (databaseSqlScore a) (databaseNosqlScore a) :=
    le_trans hsql (le_max_left _ _)
  simp only [analyzeDatabase]
  rw [show (decide (databaseSqlScore a > databaseNosqlScore a)) = true from decide_eq_true hgt]
  rw [calcDbConf_fintech h hbase hdiff]
  exact jsRound2_095

theorem calcDbConf_le (a : TaskAnalysis) (i : Bool) (b : ℚ) :
    calculateDatabaseConfidence a i b ≤ 0.95 := by
  unfold calculateDatabaseConfidence
  exact max_le (by norm_num) (min_le_left _ _)

theorem analyzeDatabase_confidence_le (a : TaskAnalysis) :
    (analyzeDatabase a).confidence ≤ 0.95 := by
  simp only [analyzeDatabase]
  exact jsRound2_le_095 (calcDbConf_le _ _ _)

/-- The fintech analysis of the C6 counterexample: enough other boosters
that even without fintech the confidence clamps at 0.95. -/
def cexDbFintech : TaskAnalysis :=
  { projectType := .cli, features := ["auth", "payment"], complexity := .complex
  , hasAuth := true, hasDatabase := true, hasFrontend := false, hasBackend := false
  , hasRealtime := false, hasFastAPI := false, hasFintech := true
  , hasHealthcare := true, hasEcommerce := true }

theorem cexDbNoFintech_sql : databaseSqlScore { cexDbFintech with hasFintech := false } = 1 := by
  simp [databaseSqlScore, cexDbFintech]
  norm_num [min_def]

theorem cexDbNoFintech_nosql : databaseNosqlScore { cexDbFintech with hasFintech := false } = 0 := by
  simp [databaseNosqlScore, cexDbFintech]
  norm_num [min_def, max_def]

set_option maxHeartbeats 1600000 in
theorem cexDbNoFintech_confidence :
    (analyzeDatabase { cexDbFintech with hasFintech := false }).confidence = 0.95 := by
  have hgt : databaseNosqlScore { cexDbFintech with hasFintech := false } <
      databaseSqlScore { cexDbFintech with hasFintech := false } := by
    rw [cexDbNoFintech_sql, cexDbNoFintech_nosql]
    norm_num
  simp only [analyzeDatabase]
  rw [show (decide (databaseSqlScore { cexDbFintech with hasFintech := false } >
      databaseNosqlScore { cexDbFintech with hasFintech := false })) = true from
    decide_eq_true hgt]
  rw [show calculateDatabaseConfidence { cexDbFintech with hasFintech := false } true
      (max (databaseSqlScore { cexDbFintech with hasFintech := false })
        (databaseNosqlScore { cexDbFintech with hasFintech := false })) = 0.95 from ?_]
  · exact jsRound2_095
  · unfold calculateDatabaseConfidence
    rw [clampTo095]
    rw [cexDbNoFintech_sql, cexDbNoFintech_nosql]
    simp [cexDbFintech]
    norm_num [max_def]

/-- C6 counterexample: on this analysis the recommendation is PostgreSQL but
the confidence with fintech is NOT strictly greater than without (both clamp
to 0.95). -/
theorem c6_counterexample :
    (analyzeDatabase cexDbFintech).recommendation = "PostgreSQL" ∧
    ¬((analyzeDatabase cexDbFintech).confidence >
      (analyzeDatabase { cexDbFintech with hasFintech := false }).confidence) := by
  constructor
  · have hsql := databaseSqlScore_fintech_ge (a := cexDbFintech) rfl
    have hnosql := databaseNosqlScore_fintech_le (a := cexDbFintech) rfl
    have hgt : databaseNosqlScore cexDbFintech < databaseSqlScore cexDbFintech := by linarith
    simp only [analyzeDatabase]
    rw [if_pos hgt]
    rfl
  · rw [analyzeDatabase_fintech_confidence (a := cexDbFintech) rfl, cexDbNoFintech_confidence]
    norm_num

/-- C6 as amended.  For every analysis with `hasFintech = true`,
`analyzeDatabase` recommends PostgreSQL, and its confidence is greater than
OR EQUAL to the confidence on the same analysis with `hasFintech = false`
(with fintech the confidence always clamps to the 0.95 ceiling, so equality
occurs exactly when the fintech-free confidence also reaches the clamp). -/
theorem c6_fintech_postgresql_confidence_ge (a : TaskAnalysis) (h : a.hasFintech = true) :
    (analyzeDatabase a).recommendation = "PostgreSQL" ∧
    (analyzeDatabase { a with hasFintech := false }).confidence ≤
      (analyzeDatabase a).confidence := by
  constructor
  · have hsql := databaseSqlScore_fintech_ge h
    have hnosql := databaseNosqlScore_fintech_le h
    have hgt : databaseNosqlScore a < databaseSqlScore a := by linarith
    simp only [analyzeDatabase]
    rw [if_pos hgt]
    rfl
  · rw [analyzeDatabase_fintech_confidence h]
    exact analyzeDatabase_confidence_le _

/-- C6 witness. -/
theorem c6_fintech_witness :
    (analyzeDatabase cexDbFintech).recommendation = "PostgreSQL" ∧
    (analyzeDatabase { cexDbFintech with hasFintech := false }).confidence ≤
      (analyzeDatabase cexDbFintech).confidence :=
  c6_fintech_postgresql_confidence_ge cexDbFintech rfl

/-! ## C9 — case sensitivity of analyzeTask -/

/-- C9 counterexample.  `analyzeTask` is NOT case-insensitive: the
`hasBackend` derivation tests the raw input for the substrings `backend`,
`blog`, `posts`, `comments`, so `analyzeTask "Blog app"` (raw text does not
contain `blog`) differs from `analyzeTask "blog app"` in its `hasBackend`
field. -/
theorem c9_counterexample :
    (analyzeTask "Blog app").hasBackend = false ∧
    (analyzeTask (jsToLower "Blog app")).hasBackend = true ∧
    analyzeTask "Blog app" ≠ analyzeTask (jsToLower "Blog app") := by
  have h1 : (analyzeTask "Blog app").hasBackend = false := by decide
  have h2 : (analyzeTask (jsToLower "Blog app")).hasBackend = true := by decide
  refine ⟨h1, h2, fun hEq => ?_⟩
  rw [hEq, h2] at h1
  exact Bool.noConfusion h1

/-- C9 as amended.  `analyzeTask` depends only on the lowercased input plus
the four raw-text substring tests (`backend`, `blog`, `posts`, `comments`)
used by the `hasBackend` derivation: two inputs with equal lowercasings that
agree on those four raw tests receive identical analyses in every field.
Case-insensitivity as originally claimed holds exactly when lowercasing does
not change one of the four raw tests. -/
theorem c9_lowercase_and_raw_checks_determine (s t : String)
    (hlow : jsToLower s = jsToLower t)
    (hb : jsIncludes s "backend" = jsIncludes t "backend")
    (hbl : jsIncludes s "blog" = jsIncludes t "blog")
    (hp : jsIncludes s "posts" = jsIncludes t "posts")
    (hc : jsIncludes s "comments" = jsIncludes t "comments") :
    analyzeTask s = analyzeTask t := by
  simp only [analyzeTask, baseAnalysisOf]
  rw [hlow, hb, hbl, hp, hc]

/-- C9 witness: two casings whose lowercase forms agree and whose raw-text
checks agree give the same analysis. -/
theorem c9_lowercase_witness :
    analyzeTask "Fintech API" = analyzeTask "FINTECH API" :=
  c9_lowercase_and_raw_checks_determine "Fintech API" "FINTECH API"
    (by decide) (by decide) (by decide) (by decide) (by decide)

/-! ## C3 — membership preservation through the response-text pipeline

The truncation check rejects any candidate that does not end in a right
brace; these lemmas show no step of the pipeline can manufacture a right
brace that was not in the model's output.
-/

theorem mem_of_dropWhile {p : Char → Bool} {l : List Char} {x : Char}
    (h : x ∈ l.dropWhile p) : x ∈ l :=
  List.Sublist.mem h (List.dropWhile_sublist p)

theorem mem_of_takeWhile {p : Char → Bool} {l : List Char} {x : Char}
    (h : x ∈ l.takeWhile p) : x ∈ l :=
  List.Sublist.mem h (List.takeWhile_sublist p)

theorem mem_of_getLastSome {l : List Char} {x : Char} (h : l.getLast? = some x) :
    x ∈ l := by
  rcases List.mem_getLast?_eq_getLast (l := l) (x := x) (by rw [h]; rfl) with ⟨hne, hx⟩
  rw [hx]
  exact List.getLast_mem hne

theorem mem_of_jsTrim {s : String} {x : Char} (h : x ∈ (jsTrim s).data) :
    x ∈ s.data := by
  have h1 : x ∈ ((s.data.dropWhile Char.isWhitespace).reverse.dropWhile
      Char.isWhitespace).reverse := h
  rw [List.mem_reverse] at h1
  have h2 := mem_of_dropWhile h1
  rw [List.mem_reverse] at h2
  exact mem_of_dropWhile h2

theorem idxOfChar_eq_none {c : Char} {l : List Char} (h : c ∉ l) :
    idxOfChar c l = none := by
  induction l with
  | nil => rfl
  | cons d rest ih =>
    have hd : (d == c) = false := by
      rw [beq_eq_false_iff_ne]
      intro hdc
      exact h (hdc ▸ List.mem_cons_self d rest)
    simp only [idxOfChar, hd, Bool.false_eq_true, if_false]
    rw [ih fun hm => h (List.mem_cons_of_mem _ hm)]
    rfl

theorem endsWithChar_false {l : List Char} {c : Char} (h : c ∉ l) :
    endsWithChar l c = false := by
  unfold endsWithChar
  cases hg : l.getLast? with
  | none => rfl
  | some d =>
    have hd : d ∈ l := mem_of_getLastSome hg
    have hne : (d == c) = false := by
      rw [beq_eq_false_iff_ne]
      intro he
      exact h (he ▸ hd)
    simp [hne]

theorem extractBracesSpan_none {s : List Char} (h : rbrace ∉ s) :
    extractBracesSpan s = none := by
  unfold extractBracesSpan
  cases hf : idxOfChar lbrace s with
  | none => rfl
  | some i =>
    have hnr : rbrace ∉ (s.drop i).reverse := by
      rw [List.mem_reverse]
      exact fun hm => h (List.mem_of_mem_drop hm)
    simp only [idxOfChar_eq_none hnr]

theorem cleanTrailingCommas_subset :
    ∀ {l : List Char} {x : Char}, x ∈ cleanTrailingCommas l → x ∈ l := by
  intro l
  induction l with
  | nil => intro x h; simpa [cleanTrailingCommas] using h
  | cons c rest ih =>
    intro x h
    unfold cleanTrailingCommas at h
    split_ifs at h
    · exact List.mem_cons_of_mem _ (ih h)
    · rcases List.mem_cons.mp h with h' | h'
      · exact h' ▸ List.mem_cons_self _ _
      · exact List.mem_cons_of_mem _ (ih h')

theorem splitAtQuote_subset :
    ∀ {l a b : List Char}, splitAtQuote l = some (a, b) →
      (∀ x ∈ a, x ∈ l) ∧ (∀ x ∈ b, x ∈ l) := by
  intro l
  induction l with
  | nil => intro a b h; simp [splitAtQuote] at h
  | cons c rest ih =>
    intro a b h
    unfold splitAtQuote at h
    split_ifs at h
    · simp only [Option.some.injEq, Prod.mk.injEq] at h
      obtain ⟨ha, hb⟩ := h
      subst ha
      subst hb
      exact ⟨fun x hx => absurd hx (List.not_mem_nil x),
        fun x hx => List.mem_cons_of_mem _ hx⟩
    · split at h
      · rename_i a' b' hsp
        simp only [Option.some.injEq, Prod.mk.injEq] at h
        obtain ⟨ha, hb⟩ := h
        subst ha
        subst hb
        obtain ⟨hsa, hsb⟩ := ih hsp
        refine ⟨fun x hx => ?_, fun x hx => List.mem_cons_of_mem _ (hsb x hx)⟩
        rcases List.mem_cons.mp hx with h' | h'
        · exact h' ▸ List.mem_cons_self _ _
        · exact List.mem_cons_of_mem _ (hsa x h')
      · exact absurd h (by simp)

theorem tryQuoteMatch_subset :
    ∀ {l m rest : List Char}, tryQuoteMatch l = some (m, rest) →
      (∀ x ∈ m, x ∈ l ∨ x = dquote) ∧ (∀ x ∈ rest, x ∈ l) := by
  intro l m rest h
  simp only [tryQuoteMatch] at h
  split at h
  case h_2 => exact absurd h (by simp)
  case h_1 q l2 h1 =>
    have h1' : List.dropWhile Char.isWhitespace l = q :: l2 := h1
    have hsub2 : ∀ x ∈ q :: l2, x ∈ l := fun x hx =>
      mem_of_dropWhile (p := Char.isWhitespace) (by rw [h1']; exact hx)
    split at h
    case isFalse => exact absurd h (by simp)
    case isTrue hq =>
      split at h
      case h_2 => exact absurd h (by simp)
      case h_1 inner l3 h2 =>
        have hsubInner := (splitAtQuote_subset h2).1
        have hsubl3 := (splitAtQuote_subset h2).2
        split at h
        case h_2 => exact absurd h (by simp)
        case h_1 d l5 h3 =>
          have h3' : List.dropWhile Char.isWhitespace l3 = d :: l5 := h3
          have hsub5 : ∀ x ∈ d :: l5, x ∈ l3 := fun x hx =>
            mem_of_dropWhile (p := Char.isWhitespace) (by rw [h3']; exact hx)
          split at h
          case isFalse => exact absurd h (by simp)
          case isTrue hd =>
            simp only [Option.some.injEq, Prod.mk.injEq] at h
            obtain ⟨hm, hrest⟩ := h
            subst hm
            subst hrest
            have hl2l : ∀ x ∈ l2, x ∈ l := fun x hx =>
              hsub2 x (List.mem_cons_of_mem _ hx)
            have hl3l : ∀ x ∈ l3, x ∈ l := fun x hx => hl2l x (hsubl3 x hx)
            constructor
            · intro x hx
              rcases List.mem_append.mp hx with hx | hx
              · exact Or.inl (mem_of_takeWhile hx)
              · rcases List.mem_cons.mp hx with hx | hx
                · exact Or.inr hx
                · rcases List.mem_append.mp hx with hx | hx
                  · rcases List.mem_append.mp hx with hx | hx
                    · rcases List.mem_append.mp hx with hx | hx
                      · exact Or.inl (hl2l x (hsubInner x hx))
                      · rcases List.mem_cons.mp hx with hx | hx
                        · exact Or.inr hx
                        · exact absurd hx (List.not_mem_nil x)
                    · exact Or.inl (hl3l x (mem_of_takeWhile hx))
                  · rcases List.mem_cons.mp hx with hx | hx
                    · exact Or.inl (hl3l x (by rw [hx]; exact hsub5 d (List.mem_cons_self _ _)))
                    · exact absurd hx (List.not_mem_nil x)
            · intro x hx
              exact hl3l x (hsub5 x (List.mem_cons_of_mem _ hx))

theorem findBlockEnd_subset :
    ∀ {l r : List Char}, findBlockEnd l = some r → ∀ x ∈ r, x ∈ l := by
  intro l
  induction l with
  | nil => intro r h; simp [findBlockEnd] at h
  | cons c rest ih =>
    intro r h x hx
    unfold findBlockEnd at h
    split_ifs at h
    · simp only [Option.some.injEq] at h
      subst h
      exact List.mem_cons_of_mem _ (List.mem_of_mem_drop hx)
    · exact List.mem_cons_of_mem _ (ih h x hx)

theorem wsThenRBracket_subset :
    ∀ {l r : List Char}, wsThenRBracket l = some r → ∀ x ∈ r, x ∈ l := by
  intro l r h x hx
  unfold wsThenRBracket at h
  split at h
  case h_2 => exact absurd h (by simp)
  case h_1 c rest h1 =>
    have h1' : List.dropWhile Char.isWhitespace l = c :: rest := h1
    split_ifs at h
    simp only [Option.some.injEq] at h
    subst h
    exact mem_of_dropWhile (p := Char.isWhitespace)
      (by rw [h1']; exact List.mem_cons_of_mem _ hx)

theorem cleanQuotes_noNew :
    ∀ (l : List Char) (x : Char), x ∈ cleanQuotes l → x ∈ l ∨ x = dquote := by
  intro l
  induction l using cleanQuotes.induct with
  | case1 => intro x h; simp [cleanQuotes] at h
  | case2 c rest hcond m rest' hmatch ih =>
    intro x h
    rw [cleanQuotes, if_pos hcond, hmatch] at h
    rcases List.mem_cons.mp h with h' | h'
    · exact Or.inl (h' ▸ List.mem_cons_self _ _)
    · rcases List.mem_append.mp h' with h'' | h''
      · rcases (tryQuoteMatch_subset hmatch).1 x h'' with h3 | h3
        · exact Or.inl (List.mem_cons_of_mem _ h3)
        · exact Or.inr h3
      · rcases ih x h'' with h3 | h3
        · exact Or.inl (List.mem_cons_of_mem _ ((tryQuoteMatch_subset hmatch).2 x h3))
        · exact Or.inr h3
  | case3 c rest hcond hmatch ih =>
    intro x h
    rw [cleanQuotes, if_pos hcond, hmatch] at h
    rcases List.mem_cons.mp h with h' | h'
    · exact Or.inl (h' ▸ List.mem_cons_self _ _)
    · rcases ih x h' with h3 | h3
      · exact Or.inl (List.mem_cons_of_mem _ h3)
      · exact Or.inr h3
  | case4 c rest hcond ih =>
    intro x h
    rw [cleanQuotes, if_neg hcond] at h
    rcases List.mem_cons.mp h with h' | h'
    · exact Or.inl (h' ▸ List.mem_cons_self _ _)
    · rcases ih x h' with h3 | h3
      · exact Or.inl (List.mem_cons_of_mem _ h3)
      · exact Or.inr h3

theorem cleanLineComments_subset :
    ∀ (l : List Char) (x : Char), x ∈ cleanLineComments l → x ∈ l := by
  intro l
  induction l using cleanLineComments.induct with
  | case1 => intro x h; simp [cleanLineComments] at h
  | case2 c rest hcond ih =>
    intro x h
    rw [cleanLineComments, if_pos hcond] at h
    exact List.mem_cons_of_mem _ (mem_of_dropWhile (ih x h))
  | case3 c rest hcond ih =>
    intro x h
    rw [cleanLineComments, if_neg hcond] at h
    rcases List.mem_cons.mp h with h' | h'
    · exact h' ▸ List.mem_cons_self _ _
    · exact List.mem_cons_of_mem _ (ih x h')

theorem cleanBlockComments_subset :
    ∀ (l : List Char) (x : Char), x ∈ cleanBlockComments l → x ∈ l := by
  intro l
  induction l using cleanBlockComments.induct with
  | case1 => intro x h; simp [cleanBlockComments] at h
  | case2 c rest hcond rest' hmatch ih =>
    intro x h
    rw [cleanBlockComments, if_pos hcond, hmatch] at h
    exact List.mem_cons_of_mem _
      (List.mem_of_mem_drop (findBlockEnd_subset hmatch x (ih x h)))
  | case3 c rest hcond hmatch ih =>
    intro x h
    rw [cleanBlockComments, if_pos hcond, hmatch] at h
    rcases List.mem_cons.mp h with h' | h'
    · exact h' ▸ List.mem_cons_self _ _
    · exact List.mem_cons_of_mem _ (ih x h')
  | case4 c rest hcond ih =>
    intro x h
    rw [cleanBlockComments, if_neg hcond] at h
    rcases List.mem_cons.mp h with h' | h'
    · exact h' ▸ List.mem_cons_self _ _
    · exact List.mem_cons_of_mem _ (ih x h')

theorem cleanEmptyArrays_noNew :
    ∀ (l : List Char) (x : Char),
      x ∈ cleanEmptyArrays l → x ∈ l ∨ x = '[' ∨ x = ']' := by
  intro l
  induction l using cleanEmptyArrays.induct with
  | case1 => intro x h; simp [cleanEmptyArrays] at h
  | case2 c rest hcond rest' hmatch ih =>
    intro x h
    rw [cleanEmptyArrays, if_pos hcond, hmatch] at h
    rcases List.mem_cons.mp h with h' | h'
    · exact Or.inr (Or.inl h')
    · rcases List.mem_cons.mp h' with h'' | h''
      · exact Or.inr (Or.inr h'')
      · rcases ih x h'' with h3 | h3
        · exact Or.inl (List.mem_cons_of_mem _ (wsThenRBracket_subset hmatch x h3))
        · exact Or.inr h3
  | case3 c rest hcond hmatch ih =>
    intro x h
    rw [cleanEmptyArrays, if_pos hcond, hmatch] at h
    rcases List.mem_cons.mp h with h' | h'
    · exact Or.inl (h' ▸ List.mem_cons_self _ _)
    · rcases ih x h' with h3 | h3
      · exact Or.inl (List.mem_cons_of_mem _ h3)
      · exact Or.inr h3
  | case4 c rest hcond ih =>
    intro x h
    rw [cleanEmptyArrays, if_neg hcond] at h
    rcases List.mem_cons.mp h with h' | h'
    · exact Or.inl (h' ▸ List.mem_cons_self _ _)
    · rcases ih x h' with h3 | h3
      · exact Or.inl (List.mem_cons_of_mem _ h3)
      · exact Or.inr h3

theorem replaceMarkerWs_subset :
    ∀ (m : Char) (ms l : List Char) (x : Char), x ∈ replaceMarkerWs m ms l → x ∈ l := by
  intro m ms l
  induction l using replaceMarkerWs.induct m ms with
  | case1 => intro x h; simp [replaceMarkerWs] at h
  | case2 c rest hcond ih =>
    intro x h
    rw [replaceMarkerWs, if_pos hcond] at h
    exact List.mem_cons_of_mem _
      (List.mem_of_mem_drop (mem_of_dropWhile (ih x h)))
  | case3 c rest hcond ih =>
    intro x h
    rw [replaceMarkerWs, if_neg hcond] at h
    rcases List.mem_cons.mp h with h' | h'
    · exact h' ▸ List.mem_cons_self _ _
    · exact List.mem_cons_of_mem _ (ih x h')

theorem stripFences_subset {l : List Char} {x : Char} (h : x ∈ stripFences l) :
    x ∈ l := by
  unfold stripFences at h
  exact replaceMarkerWs_subset _ _ _ _ (replaceMarkerWs_subset _ _ _ _ h)

theorem cutToFirstLB_subset {l : List Char} {x : Char} (h : x ∈ cutToFirstLB l) :
    x ∈ l := by
  unfold cutToFirstLB at h
  split at h
  · split_ifs at h
    · exact List.mem_of_mem_drop h
    · exact h
  · exact h

theorem cleanJsonChars_subset {l : List Char} {x : Char} (h : x ∈ cleanJsonChars l) :
    x ∈ l ∨ x = dquote ∨ x = '[' ∨ x = ']' := by
  unfold cleanJsonChars at h
  rcases cleanEmptyArrays_noNew _ _ h with h1 | h1 | h1
  · have h2 := cleanBlockComments_subset _ _ h1
    have h3 := cleanLineComments_subset _ _ h2
    rcases cleanQuotes_noNew _ _ h3 with h4 | h4
    · exact Or.inl (cleanTrailingCommas_subset h4)
    · exact Or.inr (Or.inl h4)
  · exact Or.inr (Or.inr (Or.inl h1))
  · exact Or.inr (Or.inr (Or.inr h1))

theorem rbrace_not_special : rbrace ≠ dquote ∧ rbrace ≠ '[' ∧ rbrace ≠ ']' := by
  refine ⟨?_, ?_, ?_⟩ <;> decide

theorem cleanJsonChars_no_rbrace {l : List Char} (h : rbrace ∉ l) :
    rbrace ∉ cleanJsonChars l := by
  intro hmem
  rcases cleanJsonChars_subset hmem with h1 | h1 | h1 | h1
  · exact h h1
  · exact rbrace_not_special.1 h1
  · exact rbrace_not_special.2.1 h1
  · exact rbrace_not_special.2.2 h1

/-! ## C3 — the attempt-level lemmas and the theorem -/

/-- The locally synthesized fallback response satisfies the full structural
schema, whatever the phase contents. -/
theorem validateResponse_fallback (phase : Phase) :
    validateResponse (createFallbackResponse phase) = true := by
  unfold validateResponse createFallbackResponse
  simp only [Json.getField, Json.isTruthy, typeofIsObject, isStrField, isArrField, jsOr,
    List.lookup, List.all_map]
  simp [validFileEntry, Json.getField, List.lookup, List.all_eq_true, Function.comp,
    isStrField, isArrField]

/-- A main-loop attempt returns a response only after it validated it. -/
theorem attemptOnce_ok_validates {parse : JsonParse} {r : CallResult} {j : Json}
    (h : attemptOnce parse r = .ok j) : validateResponse j = true := by
  cases r with
  | err => simp [attemptOnce] at h
  | ok content =>
    simp only [attemptOnce] at h
    split_ifs at h
    split at h
    · exact absurd h (by simp)
    · split at h
      · exact absurd h (by simp)
      · rename_i parsed hp
        split_ifs at h with hv
        simp only [Except.ok.injEq] at h
        exact h ▸ hv

/-- The repair call returns a response only after it validated it. -/
theorem attemptRepair_some_validates {parse : JsonParse} {r : CallResult} {j : Json}
    (h : attemptRepair parse r = some j) : validateResponse j = true := by
  cases r with
  | err => simp [attemptRepair] at h
  | ok content =>
    simp only [attemptRepair] at h
    split_ifs at h
    split at h
    · exact absurd h (by simp)
    · split_ifs at h with hv
      simp only [Option.some.injEq] at h
      exact h ▸ hv

/-- Truncated content (no right brace anywhere) is rejected by the main
attempt's processing. -/
theorem processMainContent_noRB {content : String} (h : rbrace ∉ content.data) :
    processMainContent content = .error "JSON response appears to be truncated" := by
  unfold processMainContent
  have h0 : rbrace ∉ (jsTrim content).data := fun hm => h (mem_of_jsTrim hm)
  have h1 : rbrace ∉ stripFences (jsTrim content).data := fun hm => h0 (stripFences_subset hm)
  have h2 : rbrace ∉ cutToFirstLB (stripFences (jsTrim content).data) := fun hm =>
    h1 (cutToFirstLB_subset hm)
  simp [endsWithChar_false h2]

/-- The model behaviors quantified by the claim: `JSON.parse` fails on every
string (invalid JSON on every call), every returned content is truncated
(contains no closing brace), or every call throws. -/
def badModel (parse : JsonParse) (oracle : Oracle) : Prop :=
  (∀ s, parse s = none) ∨
  (∀ k c, oracle k = .ok c → rbrace ∉ c.data) ∨
  (∀ k, oracle k = .err)

/-- Under any of the claim's model behaviors, the simple-schema last resort
never reaches `convertSimpleToFullResponse` and yields the local fallback. -/
theorem attemptSimple_bad {parse : JsonParse} {r : CallResult} (phase : Phase)
    (hbad : (∀ s, parse s = none) ∨ (∀ c, r = .ok c → rbrace ∉ c.data) ∨ r = .err) :
    attemptSimple parse r phase = createFallbackResponse phase := by
  cases r with
  | err => rfl
  | ok content =>
    simp only [attemptSimple]
    rcases hbad with hp | hnr | habs
    · split_ifs
      · rfl
      · simp only [hp]
      · rfl
    · have hnc : rbrace ∉ content.data := hnr content rfl
      have h1 : rbrace ∉ (jsTrim content).data := fun hm => hnc (mem_of_jsTrim hm)
      have h2 : rbrace ∉
          (match idxOfChar lbrace (jsTrim content).data with
           | some i => if i > 0 then (jsTrim content).data.drop i else (jsTrim content).data
           | none => (jsTrim content).data) := by
        split
        · split_ifs
          · exact fun hm => h1 (List.mem_of_mem_drop hm)
          · exact h1
        · exact h1
      split_ifs with hemp hguard
      · rfl
      · rw [extractBracesSpan_none h2] at hguard
        simp only [endsWithChar_false (cleanJsonChars_no_rbrace h2), Bool.and_false,
          Bool.false_eq_true] at hguard
      · rfl
    · exact absurd habs (by simp)

/-- Under any of the claim's model behaviors, every iteration of the retry
loop produces a schema-valid response. -/
theorem performGo_validates {parse : JsonParse} {oracle : Oracle}
    (hbad : badModel parse oracle) (phase : Phase) :
    ∀ fuel k, validateResponse (performGo parse oracle phase fuel k).1 = true := by
  intro fuel
  induction fuel with
  | zero => intro k; exact validateResponse_fallback phase
  | succ fuel ih =>
    intro k
    simp only [performGo]
    cases hao : attemptOnce parse (oracle k) with
    | ok j =>
      simpa using attemptOnce_ok_validates hao
    | error e =>
      simp only []
      split_ifs with hf0 hf1
      · have : attemptSimple parse (oracle (k + 1)) phase = createFallbackResponse phase := by
          apply attemptSimple_bad
          rcases hbad with hp | hnr | herr
          · exact Or.inl hp
          · exact Or.inr (Or.inl fun c hc => hnr (k + 1) c hc)
          · exact Or.inr (Or.inr (herr (k + 1)))
        simpa [this] using validateResponse_fallback phase
      · cases har : attemptRepair parse (oracle (k + 1)) with
        | some j => simpa using attemptRepair_some_validates har
        | none => simpa using ih (k + 2)
      · exact ih (k + 1)

/-- Keyed lookup in a cache after `Map.set`: the inserted entry, or an entry
the original cache already answered with. -/
theorem mapSet_lookup_cases {m : List (String × SCacheEntry)} {k j : String}
    {v e : SCacheEntry} (h : (mapSet m k v).lookup j = some e) :
    e = v ∨ m.lookup j = some e := by
  unfold mapSet at h
  by_cases hjk : (j == k) = true
  · simp only [List.lookup, hjk, Option.some.injEq] at h
    exact Or.inl h.symm
  · simp only [List.lookup, hjk] at h
    right
    induction m with
    | nil => simpa using h
    | cons p rest ih =>
      by_cases hpk : (p.1 == k) = true
      · have : (j == p.1) = false := by
          rw [beq_eq_false_iff_ne]
          intro hj
          exact hjk (by rw [hj]; exact hpk)
        simp only [List.filter, hpk, Bool.not_true] at h
        simp only [List.lookup, this]
        exact ih h
      · simp only [List.filter, hpk, Bool.not_false] at h
        by_cases hjp : (j == p.1) = true
        · simp only [List.lookup, hjp] at h ⊢
          exact h
        · simp only [List.lookup, hjp] at h ⊢
          exact ih h

/-- C3.  If the service was constructed with an API key (client
initialized), then for every phase, task, analysis and options, under every
behavior of the external model quantified by the claim (invalid JSON on
every call, truncated content on every call, or throwing on every call),
`enhancePhase` resolves without throwing and its result satisfies the full
structural schema checked by `validateResponse`; schema-validity of the
cache entries (which the service itself maintains) is preserved. -/
theorem c3_enhance_resolves_schema_valid (parse : JsonParse) (oracle : Oracle)
    (st : ServiceState) (now : Int) (phase : Phase) (task : String)
    (analysis : TaskAnalysis)
    (hclient : st.client = true)
    (hcache : ∀ k e, st.cache.lookup k = some e → validateResponse e.response = true)
    (hbad : badModel parse oracle) :
    ∃ r st', enhancePhase parse oracle st now phase task analysis = .ok (r, st') ∧
      validateResponse r = true ∧
      (∀ k e, st'.cache.lookup k = some e → validateResponse e.response = true) := by
  unfold enhancePhase
  rw [hclient]
  simp only [Bool.not_true, Bool.false_eq_true, if_false]
  set key := generateCacheKey task phase.name phase.files with hkey
  cases hl : st.cache.lookup key with
  | some cached =>
    dsimp only
    split_ifs with htime
    · exact ⟨cached.response, st, rfl, hcache key cached hl, hcache⟩
    · refine ⟨_, _, rfl, performGo_validates hbad phase 3 st.calls, ?_⟩
      intro k e he
      rcases mapSet_lookup_cases he with he' | he'
      · rw [he']
        exact performGo_validates hbad phase 3 st.calls
      · exact hcache k e he'
  | none =>
    refine ⟨_, _, rfl, performGo_validates hbad phase 3 st.calls, ?_⟩
    intro k e he
    rcases mapSet_lookup_cases he with he' | he'
    · rw [he']
      exact performGo_validates hbad phase 3 st.calls
    · exact hcache k e he'

/-- C3 witness: a fresh service with a key, a model that always throws. -/
theorem c3_enhance_witness :
    ∃ r st', enhancePhase (fun _ => none) (fun _ => .err)
        { client := true, cache := [], calls := 0 } 0
        (generateSetupPhase (analyzeTask "demo")) "demo" (analyzeTask "demo") =
        .ok (r, st') ∧
      validateResponse r = true ∧
      (∀ k e, st'.cache.lookup k = some e → validateResponse e.response = true) :=
  c3_enhance_resolves_schema_valid (fun _ => none) (fun _ => .err)
    { client := true, cache := [], calls := 0 } 0
    (generateSetupPhase (analyzeTask "demo")) "demo" (analyzeTask "demo")
    rfl (by intro k e h; simp [List.lookup] at h) (Or.inr (Or.inr fun _ => rfl))

/-! ## C7 — the enhancement cache -/

/-- The retry loop never decreases the global call counter. -/
theorem performGo_calls_ge (parse : JsonParse) (oracle : Oracle) (phase : Phase) :
    ∀ fuel k, k ≤ (performGo parse oracle phase fuel k).2 := by
  intro fuel
  induction fuel with
  | zero => intro k; simp [performGo]
  | succ fuel ih =>
    intro k
    simp only [performGo]
    cases hao : attemptOnce parse (oracle k) with
    | ok j => dsimp only; omega
    | error e =>
      dsimp only
      split_ifs
      · dsimp only; omega
      · cases har : attemptRepair parse (oracle (k + 1)) with
        | some j => dsimp only; omega
        | none =>
          dsimp only
          have := ih (k + 2)
          omega
      · have := ih (k + 1)
        omega

/-- With at least one attempt remaining, the retry loop issues at least one
model call. -/
theorem performGo_calls_succ (parse : JsonParse) (oracle : Oracle) (phase : Phase)
    (fuel k : Nat) : k + 1 ≤ (performGo parse oracle phase (fuel + 1) k).2 := by
  simp only [performGo]
  cases hao : attemptOnce parse (oracle k) with
  | ok j => dsimp only; omega
  | error e =>
    dsimp only
    split_ifs
    · dsimp only; omega
    · cases har : attemptRepair parse (oracle (k + 1)) with
      | some j => dsimp only; omega
      | none =>
        dsimp only
        have := performGo_calls_ge parse oracle phase fuel (k + 2)
        omega
    · have := performGo_calls_ge parse oracle phase fuel (k + 1)
      omega

/-- Lookup of the key just written by `Map.set`. -/
theorem mapSet_lookup_self (m : List (String × SCacheEntry)) (k : String)
    (v : SCacheEntry) : (mapSet m k v).lookup k = some v := by
  simp [mapSet, List.lookup]

/-- Equal normalized tasks, phase names and sorted path lists give equal
cache keys. -/
theorem generateCacheKey_congr {task₁ task₂ : String} {phase₁ phase₂ : Phase}
    (htask : jsTrim (jsToLower task₂) = jsTrim (jsToLower task₁))
    (hname : phase₂.name = phase₁.name)
    (hpaths : sortStrs (phase₂.files.map (·.path)) = sortStrs (phase₁.files.map (·.path))) :
    generateCacheKey task₂ phase₂.name phase₂.files =
      generateCacheKey task₁ phase₁.name phase₁.files := by
  unfold generateCacheKey
  rw [htask, hname, hpaths]

/-- C7.  A first `enhancePhase` call that misses the cache (entry absent or
older than its TTL) issues at least one model call and stores its response
at timestamp `now₁`; a second call with the same normalized task
(lowercased/trimmed), same phase name and same sorted file-path set within
24 hours of that timestamp returns the cached response without invoking the
external model again (the returned state, including the model-call counter,
is exactly the state left by the first call); once the entry is older than
the TTL, a further call issues a fresh model call. -/
theorem c7_cache_hit_within_ttl (parse₁ : JsonParse) (oracle₁ : Oracle)
    (parse₂ : JsonParse) (oracle₂ : Oracle) (st : ServiceState) (now₁ now₂ : Int)
    (phase₁ phase₂ : Phase) (task₁ task₂ : String) (an₁ an₂ : TaskAnalysis)
    (hclient : st.client = true)
    (htask : jsTrim (jsToLower task₂) = jsTrim (jsToLower task₁))
    (hname : phase₂.name = phase₁.name)
    (hpaths : sortStrs (phase₂.files.map (·.path)) = sortStrs (phase₁.files.map (·.path)))
    (hmiss : (match st.cache.lookup (generateCacheKey task₁ phase₁.name phase₁.files) with
              | some e => decide (e.ttl ≤ now₁ - e.timestamp)
              | none => true) = true) :
    ∃ r st',
      enhancePhase parse₁ oracle₁ st now₁ phase₁ task₁ an₁ = .ok (r, st') ∧
      st.calls + 1 ≤ st'.calls ∧
      (now₂ - now₁ < serviceTTL →
        enhancePhase parse₂ oracle₂ st' now₂ phase₂ task₂ an₂ = .ok (r, st')) ∧
      (serviceTTL ≤ now₂ - now₁ →
        ∀ r₂ st₂, enhancePhase parse₂ oracle₂ st' now₂ phase₂ task₂ an₂ = .ok (r₂, st₂) →
          st'.calls + 1 ≤ st₂.calls) := by
  have hkey₂ : generateCacheKey task₂ phase₂.name phase₂.files =
      generateCacheKey task₁ phase₁.name phase₁.files :=
    generateCacheKey_congr htask hname hpaths
  refine ⟨(performEnhancement parse₁ oracle₁ phase₁ task₁ an₁ st.calls).1,
    { st with
      cache := mapSet st.cache (generateCacheKey task₁ phase₁.name phase₁.files)
        ⟨(performEnhancement parse₁ oracle₁ phase₁ task₁ an₁ st.calls).1, now₁, serviceTTL⟩
      calls := (performEnhancement parse₁ oracle₁ phase₁ task₁ an₁ st.calls).2 },
    ?_, ?_, ?_, ?_⟩
  · unfold enhancePhase
    rw [hclient]
    dsimp only
    cases hl : st.cache.lookup (generateCacheKey task₁ phase₁.name phase₁.files) with
    | none => rfl
    | some e =>
      rw [hl] at hmiss
      have htime : e.ttl ≤ now₁ - e.timestamp := by
        simpa using hmiss
      dsimp only
      rw [if_neg (not_lt.mpr htime)]
      rfl
  · exact performGo_calls_succ parse₁ oracle₁ phase₁ 2 st.calls
  · intro htime
    unfold enhancePhase
    rw [show ({ st with
      cache := mapSet st.cache (generateCacheKey task₁ phase₁.name phase₁.files)
        ⟨(performEnhancement parse₁ oracle₁ phase₁ task₁ an₁ st.calls).1, now₁, serviceTTL⟩
      calls := (performEnhancement parse₁ oracle₁ phase₁ task₁ an₁ st.calls).2 } :
        ServiceState).client = true from hclient]
    dsimp only
    rw [hkey₂, mapSet_lookup_self]
    dsimp only
    rw [if_pos htime]
    rfl
  · intro htime r₂ st₂ heq
    unfold enhancePhase at heq
    rw [show ({ st with
      cache := mapSet st.cache (generateCacheKey task₁ phase₁.name phase₁.files)
        ⟨(performEnhancement parse₁ oracle₁ phase₁ task₁ an₁ st.calls).1, now₁, serviceTTL⟩
      calls := (performEnhancement parse₁ oracle₁ phase₁ task₁ an₁ st.calls).2 } :
        ServiceState).client = true from hclient] at heq
    dsimp only at heq
    rw [hkey₂, mapSet_lookup_self] at heq
    dsimp only at heq
    rw [if_neg (not_lt.mpr htime)] at heq
    simp only [Bool.not_true, Bool.false_eq_true, if_false, Except.ok.injEq,
      Prod.mk.injEq] at heq
    obtain ⟨-, hst₂⟩ := heq
    rw [← hst₂]
    exact performGo_calls_succ parse₂ oracle₂ phase₂ 2 _

/-- C7 witness: fresh service, always-throwing model; the first call at time
0 caches the fallback, the second call at time 1 hits it. -/
theorem c7_cache_witness :
    ∃ r st',
      enhancePhase (fun _ => none) (fun _ => .err)
        { client := true, cache := [], calls := 0 } 0
        (generateSetupPhase (analyzeTask "demo")) "demo" (analyzeTask "demo") =
        .ok (r, st') ∧
      0 + 1 ≤ st'.calls ∧
      ((1 : Int) - 0 < serviceTTL →
        enhancePhase (fun _ => none) (fun _ => .err) st' 1
          (generateSetupPhase (analyzeTask "demo")) "demo" (analyzeTask "demo") =
          .ok (r, st')) ∧
      (serviceTTL ≤ (1 : Int) - 0 →
        ∀ r₂ st₂, enhancePhase (fun _ => none) (fun _ => .err) st' 1
            (generateSetupPhase (analyzeTask "demo")) "demo" (analyzeTask "demo") =
            .ok (r₂, st₂) →
          st'.calls + 1 ≤ st₂.calls) := by
  have h := c7_cache_hit_within_ttl (fun _ => none) (fun _ => .err)
    (fun _ => none) (fun _ => .err)
    { client := true, cache := [], calls := 0 } 0 1
    (generateSetupPhase (analyzeTask "demo")) (generateSetupPhase (analyzeTask "demo"))
    "demo" "demo" (analyzeTask "demo") (analyzeTask "demo")
    rfl rfl rfl rfl (by simp [List.lookup])
  exact h

/-! ## C8 — batch orchestrator: exception path completes with all failed -/

theorem natLookup_filter_ne {α : Type} (k j : Nat) (h : j ≠ k)
    (m : List (Nat × α)) :
    (m.filter fun p => !(p.1 == k)).lookup j = m.lookup j := by
  induction m with
  | nil => rfl
  | cons a m ih =>
    obtain ⟨a1, a2⟩ := a
    by_cases hak : a1 = k
    · subst hak
      have hj : (j == a1) = false := by simpa using h
      simp [List.filter_cons, List.lookup, hj, ih]
    · have hk : (a1 == k) = false := by simpa using hak
      by_cases hja : j = a1
      · subst hja
        simp [List.filter_cons, List.lookup, hk]
      · have hja' : (j == a1) = false := by simpa using hja
        simp [List.filter_cons, List.lookup, hk, hja', ih]

theorem natMapSet_lookup {α : Type} (m : List (Nat × α)) (k : Nat) (v : α)
    (j : Nat) :
    (natMapSet m k v).lookup j = if j = k then some v else m.lookup j := by
  by_cases hjk : j = k
  · subst hjk
    simp [natMapSet, List.lookup]
  · have hjk' : (j == k) = false := by simpa using hjk
    simp [natMapSet, List.lookup, hjk', hjk, natLookup_filter_ne k j hjk]

theorem foldl_orch_fields {f : PlanEnhancementState → Nat → PlanEnhancementState}
    (hf : ∀ s i, (f s i).basePlan = s.basePlan ∧ (f s i).progress = s.progress)
    (l : List Nat) (st : PlanEnhancementState) :
    (l.foldl f st).basePlan = st.basePlan ∧ (l.foldl f st).progress = st.progress := by
  induction l generalizing st with
  | nil => exact ⟨rfl, rfl⟩
  | cons i l ih =>
    obtain ⟨h1, h2⟩ := ih (f st i)
    obtain ⟨g1, g2⟩ := hf st i
    exact ⟨h1.trans g1, h2.trans g2⟩

theorem foldl_orch_enh {f : PlanEnhancementState → Nat → PlanEnhancementState}
    (hf : ∀ s i, (f s i).enhancedPhases = s.enhancedPhases)
    (l : List Nat) (st : PlanEnhancementState) :
    (l.foldl f st).enhancedPhases = st.enhancedPhases := by
  induction l generalizing st with
  | nil => rfl
  | cons i l ih => exact (ih (f st i)).trans (hf st i)

theorem foldl_setStatus_lookup (v : PhaseStatus) (l : List Nat)
    (st : PlanEnhancementState) (j : Nat) :
    ((l.foldl (fun s i => setStatus s i v) st).phaseStatuses.lookup j) =
      if j ∈ l then some v else st.phaseStatuses.lookup j := by
  induction l generalizing st with
  | nil => simp
  | cons i l ih =>
    rw [List.foldl_cons, ih]
    by_cases hj : j ∈ l
    · simp [hj]
    · by_cases hji : j = i
      · subst hji
        simp [hj, setStatus, natMapSet_lookup]
      · simp [hj, hji, setStatus, natMapSet_lookup]

theorem markAllEnhancing_fields (st : PlanEnhancementState) :
    (markAllEnhancing st).basePlan = st.basePlan ∧
    (markAllEnhancing st).progress = st.progress ∧
    (markAllEnhancing st).enhancedPhases = st.enhancedPhases :=
  ⟨(@foldl_orch_fields (fun s i => setStatus s i .enhancing)
      (fun _ _ => ⟨rfl, rfl⟩) _ st).1,
   (@foldl_orch_fields (fun s i => setStatus s i .enhancing)
      (fun _ _ => ⟨rfl, rfl⟩) _ st).2,
   @foldl_orch_enh (fun s i => setStatus s i .enhancing) (fun _ _ => rfl) _ st⟩

theorem markAllFailed_fields (st : PlanEnhancementState) :
    (markAllFailed st).basePlan = st.basePlan ∧
    (markAllFailed st).progress = st.progress ∧
    (markAllFailed st).enhancedPhases = st.enhancedPhases :=
  ⟨(@foldl_orch_fields (fun s i => setStatus s i .enhancement_failed)
      (fun _ _ => ⟨rfl, rfl⟩) _ st).1,
   (@foldl_orch_fields (fun s i => setStatus s i .enhancement_failed)
      (fun _ _ => ⟨rfl, rfl⟩) _ st).2,
   @foldl_orch_enh (fun s i => setStatus s i .enhancement_failed)
      (fun _ _ => rfl) _ st⟩

theorem markAllFailed_lookup (st : PlanEnhancementState) (j : Nat) :
    (markAllFailed st).phaseStatuses.lookup j =
      if j ∈ List.range st.basePlan.phases.length
      then some PhaseStatus.enhancement_failed
      else st.phaseStatuses.lookup j :=
  foldl_setStatus_lookup _ _ st j

theorem markAllEnhancing_lookup (st : PlanEnhancementState) (j : Nat) :
    (markAllEnhancing st).phaseStatuses.lookup j =
      if j ∈ List.range st.basePlan.phases.length
      then some PhaseStatus.enhancing
      else st.phaseStatuses.lookup j :=
  foldl_setStatus_lookup _ _ st j

/-- C8.  In the batch orchestrator, when the single batch enhancement call
throws (modelled as an `.error` outcome), the resulting state marks every
phase index of the plan `enhancement_failed`, forces `progress.current` up
to `progress.total`, and sets `isComplete` — the background enhancement
terminates in a completed state. -/
theorem c8_batch_exception_completes_failed (st : PlanEnhancementState)
    (htotal : st.progress.total = st.basePlan.phases.length) (e : Unit) :
    (∀ i < st.basePlan.phases.length,
      (enhancePlanAsyncBatch st (.error e)).phaseStatuses.lookup i =
        some PhaseStatus.enhancement_failed) ∧
    (enhancePlanAsyncBatch st (.error e)).progress.current =
      (enhancePlanAsyncBatch st (.error e)).progress.total ∧
    (enhancePlanAsyncBatch st (.error e)).isComplete = true := by
  refine ⟨?_, ?_, rfl⟩
  · intro i hi
    show (markAllFailed (markAllEnhancing st)).phaseStatuses.lookup i =
      some PhaseStatus.enhancement_failed
    rw [markAllFailed_lookup]
    have hmem : i ∈ List.range (markAllEnhancing st).basePlan.phases.length := by
      rw [(markAllEnhancing_fields st).1]
      exact List.mem_range.mpr hi
    simp [hmem]
  · show (markAllFailed (markAllEnhancing st)).basePlan.phases.length =
      (markAllFailed (markAllEnhancing st)).progress.total
    rw [(markAllFailed_fields _).1, (markAllEnhancing_fields st).1,
      (markAllFailed_fields _).2.1, (markAllEnhancing_fields st).2.1]
    exact htotal.symm

/-- C8 witness: a freshly registered state for a concrete plan, batch call
throwing. -/
theorem c8_batch_witness :
    (∀ i < (initEnhancementState "h" (planTask 0 "demo") (analyzeTask "demo")
        0).basePlan.phases.length,
      (enhancePlanAsyncBatch
        (initEnhancementState "h" (planTask 0 "demo") (analyzeTask "demo") 0)
        (.error ())).phaseStatuses.lookup i =
        some PhaseStatus.enhancement_failed) ∧
    (enhancePlanAsyncBatch
      (initEnhancementState "h" (planTask 0 "demo") (analyzeTask "demo") 0)
      (.error ())).progress.current =
      (enhancePlanAsyncBatch
        (initEnhancementState "h" (planTask 0 "demo") (analyzeTask "demo") 0)
        (.error ())).progress.total ∧
    (enhancePlanAsyncBatch
      (initEnhancementState "h" (planTask 0 "demo") (analyzeTask "demo") 0)
      (.error ())).isComplete = true :=
  c8_batch_exception_completes_failed
    (initEnhancementState "h" (planTask 0 "demo") (analyzeTask "demo") 0) rfl ()

/-! ## C10 — enhanced/status consistency in every reachable state -/

theorem consistent_of_no_enhanced (st : PlanEnhancementState)
    (h1 : ∀ j, st.enhancedPhases.lookup j = none)
    (h2 : ∀ j, st.phaseStatuses.lookup j ≠ some PhaseStatus.enhanced) :
    stateConsistent st := by
  constructor
  · intro i
    rw [h1 i]
    simp only [Option.isSome_none, Bool.false_eq_true, false_iff]
    exact h2 i
  · intro i
    rw [h1 i]
    exact fun h => Option.noConfusion h

theorem foldRange_inv {f : PlanEnhancementState → Nat → PlanEnhancementState}
    (P : Nat → PlanEnhancementState → Prop)
    (hstep : ∀ i s, P i s → P (i + 1) (f s i)) :
    ∀ (n : Nat) (s : PlanEnhancementState), P 0 s → P n ((List.range n).foldl f s) := by
  intro n
  induction n with
  | zero => intro s h; simpa using h
  | succ n ih =>
    intro s h
    rw [List.range_succ, List.foldl_append, List.foldl_cons, List.foldl_nil]
    exact hstep n _ (ih s h)

/-- The invariant carried across both enhancement loops: the state is
consistent and no index at or beyond the loop counter has an
`enhancedPhases` entry yet. -/
def orchInv (i : Nat) (s : PlanEnhancementState) : Prop :=
  stateConsistent s ∧ ∀ j, i ≤ j → s.enhancedPhases.lookup j = none

theorem orchInv_success (s : PlanEnhancementState) (i : Nat) (ep : EnhancedPhase)
    (h : orchInv i s) :
    orchInv (i + 1)
      (setStatus (setEnhanced s i (.enhanced ep)) i PhaseStatus.enhanced) := by
  obtain ⟨⟨hc1, hc2⟩, hu⟩ := h
  refine ⟨⟨?_, ?_⟩, ?_⟩
  · intro j
    show ((natMapSet s.enhancedPhases i (.enhanced ep)).lookup j).isSome = true ↔
      (natMapSet s.phaseStatuses i PhaseStatus.enhanced).lookup j =
        some PhaseStatus.enhanced
    rw [natMapSet_lookup, natMapSet_lookup]
    by_cases hji : j = i
    · simp [hji]
    · simp only [hji, if_false]
      exact hc1 j
  · intro j
    show (natMapSet s.enhancedPhases i (.enhanced ep)).lookup j ≠
      some EnhancedOrFailed.failedMark
    rw [natMapSet_lookup]
    by_cases hji : j = i
    · simp [hji]
    · simp only [hji, if_false]
      exact hc2 j
  · intro j hj
    show (natMapSet s.enhancedPhases i (.enhanced ep)).lookup j = none
    rw [natMapSet_lookup]
    have hji : j ≠ i := by omega
    simp only [hji, if_false]
    exact hu j (by omega)

theorem orchInv_failed (s : PlanEnhancementState) (i : Nat)
    (h : orchInv i s) :
    orchInv (i + 1) (setStatus s i PhaseStatus.enhancement_failed) := by
  obtain ⟨⟨hc1, hc2⟩, hu⟩ := h
  refine ⟨⟨?_, ?_⟩, ?_⟩
  · intro j
    show (s.enhancedPhases.lookup j).isSome = true ↔
      (natMapSet s.phaseStatuses i PhaseStatus.enhancement_failed).lookup j =
        some PhaseStatus.enhanced
    rw [natMapSet_lookup]
    by_cases hji : j = i
    · subst hji
      rw [hu j le_rfl]
      simp
    · simp only [hji, if_false]
      exact hc1 j
  · exact hc2
  · intro j hj
    exact hu j (by omega)

theorem orchInv_enhancing (s : PlanEnhancementState) (i : Nat)
    (h : orchInv i s) :
    stateConsistent (setStatus s i PhaseStatus.enhancing) := by
  obtain ⟨⟨hc1, hc2⟩, hu⟩ := h
  refine ⟨?_, hc2⟩
  intro j
  show (s.enhancedPhases.lookup j).isSome = true ↔
    (natMapSet s.phaseStatuses i PhaseStatus.enhancing).lookup j =
      some PhaseStatus.enhanced
  rw [natMapSet_lookup]
  by_cases hji : j = i
  · subst hji
    rw [hu j le_rfl]
    simp
  · simp only [hji, if_false]
    exact hc1 j

theorem processBatchResults_inv (st : PlanEnhancementState)
    (batchResults : List (Option EnhancementResult))
    (h : orchInv 0 st) :
    stateConsistent (processBatchResults st batchResults) := by
  have main :
      orchInv st.basePlan.phases.length (processBatchResults st batchResults) := by
    simp only [processBatchResults]
    refine foldRange_inv orchInv ?_ _ st h
    intro i s hs
    dsimp only
    split
    · exact orchInv_success s i _ hs
    · exact orchInv_failed s i hs
  exact main.1

theorem seqIterStep_inv (s : PlanEnhancementState) (i : Nat)
    (outcome : Except Unit EnhancementResult) (h : orchInv i s) :
    (∀ snap, (seqIterStep s i outcome).1 = some snap → stateConsistent snap) ∧
    orchInv (i + 1) (seqIterStep s i outcome).2 := by
  unfold seqIterStep
  cases hp : s.basePlan.phases.get? i with
  | none =>
    dsimp only
    refine ⟨fun snap hsnap => Option.noConfusion hsnap, ?_⟩
    have := orchInv_failed s i h
    exact this
  | some phase =>
    cases outcome with
    | ok enhanced =>
      dsimp only
      refine ⟨?_, ?_⟩
      · intro snap hsnap
        obtain rfl : setStatus s i PhaseStatus.enhancing = snap :=
          Option.some.inj hsnap
        exact orchInv_enhancing s i h
      · have hbase : orchInv i (setStatus s i PhaseStatus.enhancing) :=
          ⟨orchInv_enhancing s i h, h.2⟩
        exact orchInv_success _ i _ hbase
    | error e =>
      dsimp only
      refine ⟨?_, ?_⟩
      · intro snap hsnap
        obtain rfl : setStatus s i PhaseStatus.enhancing = snap :=
          Option.some.inj hsnap
        exact orchInv_enhancing s i h
      · have hbase : orchInv i (setStatus s i PhaseStatus.enhancing) :=
          ⟨orchInv_enhancing s i h, h.2⟩
        exact orchInv_failed _ i hbase

theorem seqIter_inv (outcomes : Nat → Except Unit EnhancementResult) :
    ∀ (remaining i : Nat) (s : PlanEnhancementState), orchInv i s →
      stateConsistent (seqIter outcomes remaining i s).1 ∧
      ∀ x ∈ (seqIter outcomes remaining i s).2, stateConsistent x := by
  intro remaining
  induction remaining with
  | zero =>
    intro i s h
    exact ⟨h.1, by intro x hx; exact absurd hx (List.not_mem_nil x)⟩
  | succ remaining ih =>
    intro i s h
    obtain ⟨hsnap, hnext⟩ := seqIterStep_inv s i (outcomes i) h
    obtain ⟨hfin, hmem⟩ := ih (i + 1) (seqIterStep s i (outcomes i)).2 hnext
    simp only [seqIter]
    cases hstep : (seqIterStep s i (outcomes i)).1 with
    | none => exact ⟨hfin, hmem⟩
    | some snap =>
      refine ⟨hfin, ?_⟩
      intro x hx
      rcases List.mem_cons.mp hx with hx | hx
      · subst hx
        exact hsnap x hstep
      · exact hmem x hx

/-- C10.  Every reachable `PlanEnhancementState` of either orchestrator
variant — the freshly registered state, the in-flight and suspension-point
snapshots, and the final state, for any model-call outcomes — keeps
`enhancedPhases` and `phaseStatuses` consistent: an `enhancedPhases` entry
exists at index `i` iff `phaseStatuses[i]` is `enhanced`, and the literal
`'failed'` marker allowed by the map's type is never stored. -/
theorem c10_enhanced_statuses_consistent (taskHash : String) (basePlan : Plan)
    (analysis : TaskAnalysis) (t0 : Int)
    (outcome : Except Unit (List (Option EnhancementResult)))
    (outcomes : Nat → Except Unit EnhancementResult)
    (s : PlanEnhancementState)
    (hs : s ∈ batchTrace (initEnhancementState taskHash basePlan analysis t0) outcome ∨
          s ∈ seqTrace outcomes (initEnhancementState taskHash basePlan analysis t0)) :
    stateConsistent s := by
  have hinit : orchInv 0 (initEnhancementState taskHash basePlan analysis t0) := by
    constructor
    · refine consistent_of_no_enhanced _ (fun j => rfl) (fun j h => ?_)
      exact Option.noConfusion h
    · intro j _
      rfl
  have hmark : stateConsistent
      (markAllEnhancing (initEnhancementState taskHash basePlan analysis t0)) := by
    refine consistent_of_no_enhanced _ ?_ ?_
    · intro j
      rw [(markAllEnhancing_fields _).2.2]
      rfl
    · intro j
      rw [markAllEnhancing_lookup]
      split
      · exact fun h => PhaseStatus.noConfusion (Option.some.inj h)
      · exact fun h => Option.noConfusion h
  have hmarkInv : orchInv 0
      (markAllEnhancing (initEnhancementState taskHash basePlan analysis t0)) := by
    refine ⟨hmark, fun j _ => ?_⟩
    rw [(markAllEnhancing_fields _).2.2]
    rfl
  rcases hs with hs | hs
  · simp only [batchTrace, List.mem_cons, List.not_mem_nil, or_false] at hs
    rcases hs with rfl | rfl | rfl
    · exact hinit.1
    · exact hmark
    · cases outcome with
      | ok batchResults =>
        show stateConsistent (processBatchResults
          (markAllEnhancing (initEnhancementState taskHash basePlan analysis t0))
          batchResults)
        exact processBatchResults_inv _ batchResults hmarkInv
      | error e =>
        show stateConsistent (markAllFailed
          (markAllEnhancing (initEnhancementState taskHash basePlan analysis t0)))
        refine consistent_of_no_enhanced _ ?_ ?_
        · intro j
          rw [(markAllFailed_fields _).2.2, (markAllEnhancing_fields _).2.2]
          rfl
        · intro j
          rw [markAllFailed_lookup]
          split
          · exact fun h => PhaseStatus.noConfusion (Option.some.inj h)
          · rw [markAllEnhancing_lookup]
            split
            · exact fun h => PhaseStatus.noConfusion (Option.some.inj h)
            · exact fun h => Option.noConfusion h
  · simp only [seqTrace, List.mem_cons, List.mem_append, List.not_mem_nil,
      or_false] at hs
    obtain ⟨hrun, hsnaps⟩ := seqIter_inv outcomes
      (initEnhancementState taskHash basePlan analysis t0).basePlan.phases.length 0
      (initEnhancementState taskHash basePlan analysis t0) hinit
    rcases hs with (rfl | hs) | rfl
    · exact hinit.1
    · exact hsnaps s hs
    · exact hrun

/-- C10 witness: the freshly registered state for a concrete plan is in the
batch trace and is consistent. -/
theorem c10_witness :
    stateConsistent
      (initEnhancementState "h" (planTask 0 "demo") (analyzeTask "demo") 0) :=
  c10_enhanced_statuses_consistent "h" (planTask 0 "demo") (analyzeTask "demo") 0
    (.error ()) (fun _ => .error ())
    (initEnhancementState "h" (planTask 0 "demo") (analyzeTask "demo") 0)
    (Or.inl (List.mem_cons_self _ _))

end TraycerLite
